import Mathlib

/-!
Verification development for the `cosiner/flag` command-line parsing library.

The definitions below are a shallow embedding of the library's resolver
(`resolve.go`), value-conversion utilities (`utils.go`), registration-time
duplicate detection (`register.go`) and, where the scanner source is absent
from the repository snapshot, a scanner model derived from the specification.

Modelling conventions:
  * Go typed pointers (`*int8`, `*[]string`, ...) become the inductive `Sink`
    holding the pointed-to value; mutation through a pointer becomes a
    functional update.
  * Go numeric values flowing through `strconv.ParseFloat` are kept as exact
    rationals (`ℚ`).  Go's narrowing conversion `int8(flt)` etc. has an
    implementation-defined result when the value is out of the target range,
    so the model stores the parsed 64-bit value itself and exposes the range
    predicate `numInRange` separately; no claim depends on the bits stored by
    an out-of-range narrowing.
  * Go `error` results become `Except PError`;  Go panics (nil dereference,
    index out of range), which are not `error` values, are marked by the
    distinguished `PError.panicked`.
  * Environment lookup (`os.Getenv`, the package variable `envParser`) is an
    explicit function argument `envF : String → String` (empty string means
    unset, as in Go).
-/

deriving instance DecidableEq for Except

namespace CosFlag

/-- Error kinds of `error.go` (`errorType`). -/
inductive errorType where
  | errNonPointer
  | errFlagNotFound
  | errInvalidNames
  | errInvalidType
  | errInvalidValue
  | errDuplicateFlagRegister
  | errFlagValueNotProvided
  | errNonFlagValue
  | errDuplicateFlagParsed
  | errInvalidSelects
  | errInvalidDefault
  | errInvalidStructure
deriving DecidableEq, Repr

/-- Conversion failures produced with plain `fmt.Errorf` by `applyValToPtr`,
`convertBool` and friends (they are not `flagError` values in Go; the model
only distinguishes their kind, not their message text). -/
inductive ConvErr where
  | badBool
  | badNum
  | badSelect
deriving DecidableEq, Repr

/-- A resolver-level failure: either a `flagError` created by `newErrorf`
(carrying its `errorType`), a conversion error, or a Go panic (nil
dereference / index out of range), which terminates the Go program rather
than being returned, and is kept distinct here. -/
inductive PError where
  | typed (t : errorType)
  | conv (e : ConvErr)
  | panicked
deriving DecidableEq, Repr

/-- The concrete numeric widths supported by `utils.go` (`typeName`).
`iword`/`uword` stand for Go `int`/`uint`, 64-bit on the library's target
platforms. -/
inductive NumTy where
  | i8 | i16 | i32 | i64 | iword
  | u8 | u16 | u32 | u64 | uword
  | f32 | f64
deriving DecidableEq, Repr

/-- The float64 overflow threshold used by the `goParseFloat` model:
`10^309`, between Go's true cutoff near `maxFloat64 ≈ 1.8e308` and `2^1024`
(the exact rounding boundary is not modelled). -/
def floatOverflowCutoff : ℚ :=
  10000000000000000000000000000000000000000000000000000000000000000000000000000000000000000000000000000000000000000000000000000000000000000000000000000000000000000000000000000000000000000000000000000000000000000000000000000000000000000000000000000000000000000000000000000000000000000000000000000000000000000000000

/-- The float64 underflow-to-zero threshold used by the `goParseFloat`
model: `10^-324`, near half the smallest denormal `2^-1075` (the exact
rounding boundary is not modelled). -/
def floatUnderflowCutoff : ℚ :=
  mkRat 1 10000000000000000000000000000000000000000000000000000000000000000000000000000000000000000000000000000000000000000000000000000000000000000000000000000000000000000000000000000000000000000000000000000000000000000000000000000000000000000000000000000000000000000000000000000000000000000000000000000000000000000000000000000000

/-- Absolute value on ℚ, spelled with the computable order test so that it
kernel-reduces on concrete inputs. -/
def ratAbs (q : ℚ) : ℚ := if q < 0 then -q else q

/-- Whether a parsed 64-bit value fits the sink's concrete width, i.e. whether
Go's narrowing conversion from `float64` has a defined (non
implementation-defined) result.  For integer targets the truncation toward
zero must be representable (bounds are `min-1 < q < max+1`); for float
targets the magnitude must stay below the type's overflow threshold. -/
def numInRange (ty : NumTy) (q : ℚ) : Bool :=
  match ty with
  | .i8 => (-129 < q) && (q < 128)
  | .i16 => (-32769 < q) && (q < 32768)
  | .i32 => (-2147483649 < q) && (q < 2147483648)
  | .i64 => (-9223372036854775809 < q) && (q < 9223372036854775808)
  | .iword => (-9223372036854775809 < q) && (q < 9223372036854775808)
  | .u8 => (-1 < q) && (q < 256)
  | .u16 => (-1 < q) && (q < 65536)
  | .u32 => (-1 < q) && (q < 4294967296)
  | .u64 => (-1 < q) && (q < 18446744073709551616)
  | .uword => (-1 < q) && (q < 18446744073709551616)
  | .f32 => ratAbs q < 340282366920938463463374607431768211456
  | .f64 => ratAbs q < floatOverflowCutoff

/-- A value sink: the state behind a flag's `Ptr interface{}` pointer.
Each constructor corresponds to one group of cases of `typeName` /
`applyValToPtr` in `utils.go`.  Numeric sinks keep the parsed `float64`
value as an exact rational (see the module comment). -/
inductive Sink where
  | bool (b : Bool)
  | str (s : String)
  | num (ty : NumTy) (v : ℚ)
  | boolSlice (bs : List Bool)
  | strSlice (ss : List String)
  | numSlice (ty : NumTy) (vs : List ℚ)
deriving DecidableEq, Repr

/-- `isBoolPtr` of `utils.go`: the sink is `*bool` or `*[]bool`. -/
def isBoolPtr : Sink → Bool
  | .bool _ => true
  | .boolSlice _ => true
  | _ => false

/-- `isSlicePtr` of `utils.go`: the sink points at a slice. -/
def isSlicePtr : Sink → Bool
  | .boolSlice _ => true
  | .strSlice _ => true
  | .numSlice _ _ => true
  | _ => false

/-- The Go reflect kind classification used by `sliceElemKind`/`checkSelects`:
bool, string or number, looking through slices. -/
inductive SinkKind where
  | kbool | kstr | knum
deriving DecidableEq, Repr

/-- `sliceElemKind` of `utils.go`, on the sink model. -/
def sinkKind : Sink → SinkKind
  | .bool _ => .kbool
  | .boolSlice _ => .kbool
  | .str _ => .kstr
  | .strSlice _ => .kstr
  | .num _ _ => .knum
  | .numSlice _ _ => .knum

/-- The value kind of a parsed default value (`parseDefault` in `utils.go`
produces a Go `bool`/`string`/`float64` or a slice of those). -/
inductive ValKind where
  | vbool | vstr | vnum
deriving DecidableEq, Repr

/-- A flag's `Default interface{}` value.  The strings are the `fmt.Sprint`
renderings consumed by `resolver.fromDefault`; the kind records the dynamic
Go type for the registration-time compatibility check
(`isKindCompatible`). -/
inductive DefVal where
  | single (k : ValKind) (s : String)
  | slice (k : ValKind) (ss : List String)
deriving DecidableEq, Repr

/-- A flag's `Selects interface{}` value after `parseSelectsValue` /
`updateFlagSelects`: either `[]float64` or `[]string`. -/
inductive SelVals where
  | nums (qs : List ℚ)
  | strs (ss : List String)
deriving DecidableEq, Repr

/-- ASCII lowercasing of one character (Go's `strings.ToLower` also folds
non-ASCII letters, which never occur in the boolean literals compared
here). -/
def asciiLower (c : Char) : Char :=
  if 65 ≤ c.toNat ∧ c.toNat ≤ 90 then Char.ofNat (c.toNat + 32) else c

/-- Scan for the first occurrence of `sep`: the prefix before it and, when
found, the remainder after it. -/
def breakOnSep (sep : List Char) : List Char → List Char × Option (List Char)
  | [] => ([], none)
  | c :: rest =>
    if sep.isPrefixOf (c :: rest) then ([], some ((c :: rest).drop sep.length))
    else
      let (b, a) := breakOnSep sep rest
      (c :: b, a)

/-- Field splitting of Go's `strings.Split` on a non-empty separator.  The
fuel argument only bounds the recursion; `length + 1` steps always suffice
since every round consumes at least one character. -/
def splitGo (sep : List Char) : Nat → List Char → List (List Char)
  | 0, cs => [cs]
  | fuel + 1, cs =>
    match breakOnSep sep cs with
    | (before, none) => [before]
    | (before, some later) => before :: splitGo sep fuel later

/-- Go `strings.TrimSpace` (ASCII whitespace; Go additionally trims rare
non-ASCII Unicode spaces, which never occur in the inputs considered
here). -/
def trimChars (cs : List Char) : List Char :=
  ((cs.dropWhile Char.isWhitespace).reverse.dropWhile Char.isWhitespace).reverse

/-- `splitAndTrimSpace` of `utils.go`: `strings.Split` followed by
`strings.TrimSpace` on each piece.  (The library never splits on an empty
separator: `ValSep` defaults to `","`.) -/
def splitAndTrimSpace (s sep : String) : List String :=
  (splitGo sep.data (s.data.length + 1) s.data).map
    (fun cs => String.mk (trimChars cs))

/-- `convertBool` of `utils.go`: normalise a textual boolean, case
insensitively, to `"true"`/`"false"`; `none` models the
`illegal boolean value` error. -/
def convertBool (val : String) : Option String :=
  match String.mk (val.data.map asciiLower) with
  | "true" | "t" | "yes" | "y" | "1" => some "true"
  | "false" | "f" | "no" | "n" | "0" => some "false"
  | _ => none

/-- Go `strconv.ParseBool`: the twelve accepted literals. -/
def goParseBool (val : String) : Option Bool :=
  match val with
  | "1" | "t" | "T" | "true" | "TRUE" | "True" => some true
  | "0" | "f" | "F" | "false" | "FALSE" | "False" => some false
  | _ => none

/-- Leading decimal digits of a character list. -/
def spanDigits (cs : List Char) : List Char × List Char :=
  (cs.takeWhile Char.isDigit, cs.dropWhile Char.isDigit)

/-- Value of a decimal digit string. -/
def digitsToNat (ds : List Char) : Nat :=
  ds.foldl (fun a c => a * 10 + (c.toNat - Char.toNat '0')) 0

/-- Parse an optional exponent suffix (`e`/`E`, optional sign, digits,
nothing after). `none` models a syntax error. -/
def parseExpSuffix (cs : List Char) : Option Int :=
  match cs with
  | [] => some 0
  | 'e' :: r | 'E' :: r =>
    let (eneg, r) :=
      match r with
      | '+' :: r2 => (false, r2)
      | '-' :: r2 => (true, r2)
      | r2 => (false, r2)
    let (ed, rest) := spanDigits r
    if ed = [] ∨ rest ≠ [] then none
    else some (if eneg then -(digitsToNat ed : Int) else (digitsToNat ed : Int))
  | _ => none

/-- Go `strconv.ParseFloat (bitSize 64)`, modelled exactly on plain decimal
literals: optional sign, decimal digits with optional fraction, optional
decimal exponent.  The result is kept as the exact rational (float64
rounding to nearest is not applied).  `none` models a returned error: either
a syntax error, or the range error Go reports when the value overflows
float64 (threshold `2^1024`) or underflows to zero (below half the smallest
denormal, `2^-1075`).  Hexadecimal literals, `Inf`/`NaN` and digit-group
underscores, which Go also accepts, are outside the modelled fragment and
are treated as syntax errors. -/
def goParseFloat (s : String) : Option ℚ :=
  let cs := s.data
  let (neg, cs) :=
    match cs with
    | '+' :: r => (false, r)
    | '-' :: r => (true, r)
    | r => (false, r)
  let (ip, cs) := spanDigits cs
  let (fp, cs) :=
    match cs with
    | '.' :: r => spanDigits r
    | r => ([], r)
  if ip = [] ∧ fp = [] then none
  else
    match parseExpSuffix cs with
    | none => none
    | some e =>
      let mant : Nat := digitsToNat (ip ++ fp)
      let mint : Int := if neg then -(mant : Int) else (mant : Int)
      let scale : Int := e - (fp.length : Int)
      let q : ℚ :=
        if 0 ≤ scale then mkRat (mint * ((10 : Int) ^ scale.toNat)) 1
        else mkRat mint ((10 : Nat) ^ (-scale).toNat)
      if floatOverflowCutoff ≤ ratAbs q then none
      else if q ≠ 0 ∧ ratAbs q < floatUnderflowCutoff then none
      else some q

/-- `checkSelects` of `utils.go`: membership of the converted value in the
declared selectable set, comparing numerically for numeric sinks and as
exact strings for string sinks; any other sink kind (or a kind/selects
mismatch, where Go's type assertion yields `nil`) is invalid. -/
def checkSelects (k : SinkKind) (selects : SelVals) (val : String) (flt : ℚ) : Bool :=
  match k, selects with
  | .knum, .nums qs => qs.contains flt
  | .kstr, .strs ss => ss.contains val
  | _, _ => false

/-- The per-sink storage step of `applyValToPtr`: `val` has already gone
through `convertBool` when the sink is boolean. -/
def applyValToPtrCore (ptr : Sink) (val : String)
    (selects : Option SelVals) : Except PError Sink :=
  let flt? := goParseFloat val
  let bl? := goParseBool val
  let newSink : Except PError Sink :=
    match ptr with
    | .num ty _ =>
      match flt? with
      | none => .error (.conv .badNum)
      | some q => .ok (.num ty q)
    | .numSlice ty vs =>
      match flt? with
      | none => .error (.conv .badNum)
      | some q => .ok (.numSlice ty (vs ++ [q]))
    | .str _ => .ok (.str val)
    | .strSlice ss => .ok (.strSlice (ss ++ [val]))
    | .bool _ =>
      match bl? with
      | none => .error (.conv .badBool)
      | some b => .ok (.bool b)
    | .boolSlice bs =>
      match bl? with
      | none => .error (.conv .badBool)
      | some b => .ok (.boolSlice (bs ++ [b]))
  match newSink with
  | .error e => .error e
  | .ok s' =>
    match selects with
    | none => .ok s'
    | some sel =>
      match checkSelects (sinkKind ptr) sel val (flt?.getD 0) with
      | true => .ok s'
      | false => .error (.conv .badSelect)

/-- `applyValToPtr` of `utils.go`: convert one textual value and store it in
the sink.  Boolean sinks first normalise through `convertBool`; every value
is then offered to `ParseFloat`/`ParseBool`, and the per-sink case decides
which parse result (and which parse error) matters.  Go mutates the sink
before the selects check; on the error path the model simply drops the
partially-updated sink, which the resolver never reads again. -/
def applyValToPtr (_names : String) (ptr : Sink) (val : String)
    (selects : Option SelVals) : Except PError Sink :=
  if isBoolPtr ptr then
    match convertBool val with
    | none => .error (.conv .badBool)
    | some v => applyValToPtrCore ptr v selects
  else applyValToPtrCore ptr val selects

/-- The fields of `Flag` (`flag.go`) read by the resolver and the register.
Display-only metadata (`Arglist`, `Usage`, `Desc`, `Version`, ...) is
omitted.  `ArgsPtr`/`ArgsAnywhere` are meaningful only on a command's `self`
flag: `ArgsPtr` holds the contents of the overflow `*[]string` (`none`
models a nil pointer). -/
structure Flag where
  Names : String
  Ptr : Sink
  ArgsPtr : Option (List String) := none
  ArgsAnywhere : Bool := false
  Default : Option DefVal := none
  Selects : Option SelVals := none
  Env : String := ""
  ValSep : String := ","
deriving DecidableEq, Repr

/-- `argumentType` of the scanner output (`argumentFlag`/`argumentValue`). -/
inductive argumentType where
  | flag
  | value
deriving DecidableEq, Repr

/-- One scanner output token (`argument`).  `Typ` is Go's `Type` field. -/
structure argument where
  Typ : argumentType
  Value : String
  Attached : String := ""
  AttachValid : Bool := false
deriving DecidableEq, Repr

mutual
/-- `FlagSet` (`flag.go`): a command node.  `flagIndexes`/`subsetIndexes`
are the Go name-to-index maps, as association lists. -/
inductive FlagSet where
  | mk (self : Flag) (flags : List Flag) (flagIndexes : List (String × Nat))
      (subsets : FlagSets) (subsetIndexes : List (String × Nat)) : FlagSet
/-- The `[]FlagSet` of child commands (a dedicated list type so that all
recursion over the tree is structural). -/
inductive FlagSets where
  | nil : FlagSets
  | cons (head : FlagSet) (tail : FlagSets) : FlagSets
end

def FlagSet.self : FlagSet → Flag
  | .mk s _ _ _ _ => s

def FlagSet.flags : FlagSet → List Flag
  | .mk _ fl _ _ _ => fl

def FlagSet.flagIndexes : FlagSet → List (String × Nat)
  | .mk _ _ fi _ _ => fi

def FlagSet.subsets : FlagSet → FlagSets
  | .mk _ _ _ su _ => su

def FlagSet.subsetIndexes : FlagSet → List (String × Nat)
  | .mk _ _ _ _ si => si

def FlagSets.get? : FlagSets → Nat → Option FlagSet
  | .nil, _ => none
  | .cons h _, 0 => some h
  | .cons _ t, n + 1 => t.get? n

def FlagSets.set : FlagSets → Nat → FlagSet → FlagSets
  | .nil, _, _ => .nil
  | .cons _ t, 0, g => .cons g t
  | .cons h t, n + 1, g => .cons h (t.set n g)

def FlagSets.toList : FlagSets → List FlagSet
  | .nil => []
  | .cons h t => h :: t.toList

def FlagSets.append : FlagSets → FlagSet → FlagSets
  | .nil, g => .cons g .nil
  | .cons h t, g => .cons h (t.append g)

/-- Go map lookup on a name-to-index association list (first binding wins;
the register never inserts a key twice). -/
def lookupIdx (m : List (String × Nat)) (k : String) : Option Nat :=
  (m.find? (fun p => p.1 == k)).map (·.2)

/-- `FlagSet.searchFlag`: name lookup returning the flag's index into
`flags` (the model's stand-in for the `*Flag` pointer identity). -/
def searchFlagIdx (f : FlagSet) (name : String) : Option Nat :=
  lookupIdx f.flagIndexes name

/-- `FlagSet.isFlag`. -/
def FlagSet.isFlag (f : FlagSet) (name : String) : Bool :=
  (lookupIdx f.flagIndexes name).isSome

/-- `FlagSet.isSubset`. -/
def FlagSet.isSubset (f : FlagSet) (name : String) : Bool :=
  (lookupIdx f.subsetIndexes name).isSome

/-- `FlagSet.isFlagOrSubset`. -/
def FlagSet.isFlagOrSubset (f : FlagSet) (name : String) : Bool :=
  f.isFlag name || f.isSubset name

/-- Modelled from the spec: the reserved flag name that marks a positional
flag.  Its defining constant lives in the scanner source, which is absent
from the snapshot; the repository README documents `@` as the positional
marker and only equality with this constant matters to the resolver. -/
def flagNamePositional : String := "@"

/-- `resolver.applyVals`: apply a list of textual values to a flag in order,
stopping at the first conversion error. -/
def applyVals (fl : Flag) : List String → Except PError Flag
  | [] => .ok fl
  | v :: vs =>
    match applyValToPtr fl.Names fl.Ptr v fl.Selects with
    | .error e => .error e
    | .ok s' => applyVals { fl with Ptr := s' } vs

/-- `resolver.fromEnv`: the environment fallback values of a flag (empty
when the variable is unset/empty; split on `ValSep` for slice sinks). -/
def fromEnv (envF : String → String) (fl : Flag) : List String :=
  let val := envF fl.Env
  if val = "" then []
  else if isSlicePtr fl.Ptr then splitAndTrimSpace val fl.ValSep
  else [val]

/-- `fmt.Sprint` of a default value, as recorded in `DefVal`. -/
def defaultPrint : DefVal → String
  | .single _ s => s
  | .slice _ ss => "[" ++ String.intercalate " " ss ++ "]"

/-- `resolver.fromDefault`: the textual values of a flag's default; slice
sinks take the element renderings with empty strings dropped.  (A slice
sink whose default is not a slice would make Go's `reflect` calls panic;
registration rules out that combination, and the model returns `[]`
there.) -/
def fromDefault (fl : Flag) : List String :=
  if !isSlicePtr fl.Ptr then
    [match fl.Default with
     | some d => defaultPrint d
     | none => "<nil>"]
  else
    match fl.Default with
    | some (.slice _ ss) => ss.filter (fun s => s ≠ "")
    | _ => []

/-- The fallback values of one flag in `resolver.applyEnvAndDefault`: the
environment values when `Env` is set and the variable is non-empty,
otherwise the default values when a default exists. -/
def envDefVals (envF : String → String) (fl : Flag) : List String :=
  let vals0 := if fl.Env ≠ "" then fromEnv envF fl else []
  if vals0 = [] ∧ fl.Default.isSome then fromDefault fl else vals0

/-- The loop body of `resolver.applyEnvAndDefault`, processing the flags of
one command from index `i` on: a flag already in `applied` is skipped,
otherwise its environment or default values are applied. -/
def applyEnvDefLoop (envF : String → String) (applied : List Nat) :
    Nat → List Flag → Except PError (List Flag)
  | _, [] => .ok []
  | i, fl :: rest =>
    if applied.contains i then
      match applyEnvDefLoop envF applied (i + 1) rest with
      | .error e => .error e
      | .ok rest' => .ok (fl :: rest')
    else
      match applyVals fl (envDefVals envF fl) with
      | .error e => .error e
      | .ok fl' =>
        match applyEnvDefLoop envF applied (i + 1) rest with
        | .error e => .error e
        | .ok rest' => .ok (fl' :: rest')

/-- The static data of one `resolver.resolveFlags` invocation: the name
table, the positional-flag indices (computed up front, as in the Go code)
and the overflow placement rule. -/
structure RCfg where
  flagIndexes : List (String × Nat)
  positional : List Nat
  argsAnywhere : Bool
deriving Repr

/-- The mutable state of the `resolver.resolveFlags` loop: the flag array
being updated in place, the overflow sink contents, the `applied` set (as
indices), the currently open flag (`flag *Flag` local) and
`positionalIndex`. -/
structure RState where
  flags : List Flag
  argsAcc : Option (List String)
  applied : List Nat
  openFlag : Option Nat
  posIdx : Nat
deriving DecidableEq, Repr

/-- `applyValue` closure of `resolveFlags`: mark the flag applied and apply
one value to it. -/
def applyValue (st : RState) (j : Nat) (v : String) : Except PError RState :=
  match st.flags.get? j with
  | none => .error .panicked
  | some fl =>
    match applyValToPtr fl.Names fl.Ptr v fl.Selects with
    | .error e => .error e
    | .ok s' =>
      .ok { st with
              applied := j :: st.applied,
              flags := st.flags.set j { fl with Ptr := s' } }

/-- `hasFlag` closure of `resolveFlags`. -/
def hasFlag (args : List argument) : Bool :=
  args.any (fun a => a.Typ == .flag)

/-- `appendNonFlagArg` closure of `resolveFlags`.  `rest` is the unconsumed
remainder after the current argument (Go passes `args[i:]` and tests
`args[1:]` of it). -/
def appendNonFlagArg (cfg : RCfg) (st : RState) (arg : argument)
    (rest : List argument) : Except PError RState :=
  if (decide (cfg.positional.length ≤ st.posIdx) && st.argsAcc.isNone)
      || (!cfg.argsAnywhere && hasFlag rest) then
    .error (.typed .errNonFlagValue)
  else if st.posIdx < cfg.positional.length then
    match cfg.positional.get? st.posIdx with
    | none => .error .panicked
    | some j =>
      match applyValue st j arg.Value with
      | .error e => .error e
      | .ok st' => .ok { st' with posIdx := st'.posIdx + 1 }
  else
    match st.argsAcc with
    | some l => .ok { st with argsAcc := some (l ++ [arg.Value]) }
    | none => .error .panicked

/-- `applyLastFlag` closure of `resolveFlags`: a still-open flag at a flag
boundary (or at end of input) is the `flag value is not provided` error. -/
def applyLastFlagCheck (st : RState) : Except PError Unit :=
  match st.openFlag with
  | none => .ok ()
  | some _ => .error (.typed .errFlagValueNotProvided)

/-- One iteration of the `resolveFlags` argument loop, on argument `arg`
with unconsumed remainder `rest`. -/
def stepArg (cfg : RCfg) (st : RState) (arg : argument)
    (rest : List argument) : Except PError RState :=
  match arg.Typ with
  | .flag =>
    match applyLastFlagCheck st with
    | .error e => .error e
    | .ok _ =>
      match lookupIdx cfg.flagIndexes arg.Value with
      | none => .error (.typed .errFlagNotFound)
      | some j =>
        match st.flags.get? j with
        | none => .error .panicked
        | some fl =>
          if st.applied.contains j && !isSlicePtr fl.Ptr then
            .error (.typed .errDuplicateFlagParsed)
          else if arg.AttachValid then
            match applyValue st j arg.Attached with
            | .error e => .error e
            | .ok st' => .ok { st' with openFlag := none }
          else if isBoolPtr fl.Ptr then
            match applyValue st j "true" with
            | .error e => .error e
            | .ok st' => .ok { st' with openFlag := none }
          else
            .ok { st with openFlag := some j }
  | .value =>
    match st.openFlag with
    | none => appendNonFlagArg cfg st arg rest
    | some j =>
      match applyValue st j arg.Value with
      | .error e => .error e
      | .ok st' => .ok { st' with openFlag := none }

/-- The `resolveFlags` argument loop. -/
def resolveLoop (cfg : RCfg) : RState → List argument → Except PError RState
  | st, [] => .ok st
  | st, a :: rest =>
    match stepArg cfg st a rest with
    | .error e => .error e
    | .ok st' => resolveLoop cfg st' rest

/-- The indices of the positional flags of a command, in declaration
order. -/
def positionalIndices (flags : List Flag) : List Nat :=
  (flags.enum.filter (fun p => p.2.Names == flagNamePositional)).map (·.1)

def initState (f : FlagSet) : RState :=
  { flags := f.flags, argsAcc := f.self.ArgsPtr, applied := [],
    openFlag := none, posIdx := 0 }

def mkRCfg (f : FlagSet) : RCfg :=
  { flagIndexes := f.flagIndexes,
    positional := positionalIndices f.flags,
    argsAnywhere := f.self.ArgsAnywhere }

/-- Rebuild a `FlagSet` from the final resolver state (the Go code updated
the flag sinks and the overflow slice in place). -/
def FlagSet.withResolved : FlagSet → List Flag → Option (List String) → FlagSet
  | .mk self _ fi su si, flags', acc =>
    .mk { self with ArgsPtr := acc } flags' fi su si

/-- `resolver.resolveFlags` (`resolve.go`): run the argument loop, finalise
the still-open flag, then apply environment/default fallbacks.  `_context`
is the command path used only in Go's error messages. -/
def resolveFlags (envF : String → String) (f : FlagSet)
    (_context : List String) (args : List argument) : Except PError FlagSet :=
  let cfg := mkRCfg f
  match resolveLoop cfg (initState f) args with
  | .error e => .error e
  | .ok st =>
    match applyLastFlagCheck st with
    | .error e => .error e
    | .ok _ =>
      match applyEnvDefLoop envF st.applied 0 st.flags with
      | .error e => .error e
      | .ok flags' => .ok (f.withResolved flags' st.argsAcc)

mutual
/-- `scanArgs`: the scanner result for one command level — this level's
token list (whose first entry is the command-name token, dropped by
`resolveSet`), the child-command sub-results, and the name of the first
child encountered. -/
inductive scanArgs where
  | mk (Flags : List argument) (Sets : SetsList) (FirstSubset : String) : scanArgs
/-- The `map[string]*scanArgs` of child runs, as an association list (Go
map iteration order is unspecified; the list order stands in for one such
order, and the proved statements do not depend on it). -/
inductive SetsList where
  | nil : SetsList
  | cons (name : String) (sub : scanArgs) (tail : SetsList) : SetsList
end

def scanArgs.Flags : scanArgs → List argument
  | .mk fl _ _ => fl

def scanArgs.Sets : scanArgs → SetsList
  | .mk _ s _ => s

def scanArgs.FirstSubset : scanArgs → String
  | .mk _ _ f => f

def SetsList.hasKey : SetsList → String → Bool
  | .nil, _ => false
  | .cons n _ t, k => n == k || t.hasKey k

/-- Replace a command's self flag (used when its self-enable sink is
updated through `&set.self`). -/
def FlagSet.withSelf : FlagSet → Flag → FlagSet
  | .mk _ fl fi su si, s => .mk s fl fi su si

mutual
/-- `resolver.resolveSet` (`resolve.go`): resolve this level's tokens, then
walk the child runs; the returned pair is the updated command node and the
`lastSubset` result (Go returns `*FlagSet`, whose nil-ness the `Option`
mirrors; the final line of the Go function substitutes the node itself for
nil). -/
def resolveSet (envF : String → String) (f : FlagSet) (context : List String)
    (args : scanArgs) : Except PError (FlagSet × Option FlagSet) :=
  match args with
  | .mk fl sets first =>
    let ctx := context ++ [f.self.Names]
    match resolveFlags envF f ctx (fl.drop 1) with
    | .error e => .error e
    | .ok f' =>
      match resolveSubsets envF f' ctx sets first none with
      | .error e => .error e
      | .ok (f'', last) => .ok (f'', some (last.getD f''))
/-- The `for sub, subArgs := range args.Sets` loop of `resolveSet`: enable
the child's self sink, recurse, store the updated child back, and record
the `lastSubset` when this entry is the first-encountered child. -/
def resolveSubsets (envF : String → String) (f : FlagSet) (ctx : List String)
    (sets : SetsList) (first : String) (lastAcc : Option FlagSet) :
    Except PError (FlagSet × Option FlagSet) :=
  match sets with
  | .nil => .ok (f, lastAcc)
  | .cons name sub tail =>
    let idx := (lookupIdx f.subsetIndexes name).getD 0
    match f.subsets.get? idx with
    | none => .error .panicked
    | some set =>
      match applyVals set.self ["true"] with
      | .error e => .error e
      | .ok self' =>
        let set1 := set.withSelf self'
        match resolveSet envF set1 ctx sub with
        | .error e => .error e
        | .ok (set2, last) =>
          let f1 := FlagSet.mk f.self f.flags f.flagIndexes
            (f.subsets.set idx set2) f.subsetIndexes
          let lastAcc' := if name == first then some (last.getD set2) else lastAcc
          resolveSubsets envF f1 ctx tail first lastAcc'
end

/-- `resolver.resolve`: the entry point; the second component is what the
Go code stores into `r.LastSet`. -/
def resolve (envF : String → String) (f : FlagSet) (args : scanArgs) :
    Except PError (FlagSet × Option FlagSet) :=
  resolveSet envF f [] args

/-- The `subsets` slot index that each entry of a child-run list names
(what `f.subsetIndexes[sub]` yields for each iteration of the
`resolveSet` loop). -/
def SetsList.idxs (m : List (String × Nat)) : SetsList → List Nat
  | .nil => []
  | .cons n _ t => (lookupIdx m n).getD 0 :: SetsList.idxs m t

/-- Pairwise distinctness of a list of slot indices, as a Boolean. -/
def natNodup : List Nat → Bool
  | [] => true
  | x :: xs =>
    match xs.contains x with
    | true => false
    | false => natNodup xs

mutual
/-- Well-formedness of a scanned child-run tree with respect to the command
tree it runs against: at every level the child-run entries name pairwise
distinct `subsets` slots, and each named child exists.  Go's `Sets` is a
map keyed by the typed child name and distinct child commands occupy
distinct `subsets` slots, so every Go scanner output has this shape; the
association-list model states it explicitly. -/
def chainGood : FlagSet → scanArgs → Bool
  | f, .mk _ sets _ =>
    natNodup (SetsList.idxs f.subsetIndexes sets) && chainGoodSets f sets
/-- `chainGood` over one level's child-run list. -/
def chainGoodSets : FlagSet → SetsList → Bool
  | _, .nil => true
  | f, .cons n sub t =>
    (match f.subsets.get? ((lookupIdx f.subsetIndexes n).getD 0) with
     | none => false
     | some child => chainGood child sub)
      && chainGoodSets f t
end

mutual
/-- The node reached from `g` by following the first-encountered child
chain of `args`: at each level, if the first-encountered child name has a
child-run entry, descend into that child's node and continue with that
entry's sub-run, and otherwise stop at the current node. -/
def chainLeaf : FlagSet → scanArgs → FlagSet
  | g, .mk _ sets first => chainLeafSets g sets first
/-- `chainLeaf` over one level's child-run list, looking for the
first-encountered name `first`. -/
def chainLeafSets : FlagSet → SetsList → String → FlagSet
  | g, .nil, _ => g
  | g, .cons n sub t, first =>
    match n == first with
    | true =>
      match g.subsets.get? ((lookupIdx g.subsetIndexes n).getD 0) with
      | none => g
      | some child => chainLeaf child sub
    | false => chainLeafSets g t first
end

/-- `register.cleanFlagNames` (`register.go`): split a comma-separated name
list and trim each piece. -/
def cleanFlagNames (names : String) : List String :=
  splitAndTrimSpace names ","

/-- `register.findDuplicates` (`register.go`): the names of `names` already
taken in the target command `set`, in the supplied immediate `parent`, or
in one of `set`'s direct children.  No deeper level is consulted. -/
def findDuplicates (parent : Option FlagSet) (set : FlagSet)
    (names : List String) : List String :=
  names.filter (fun name =>
    set.isFlagOrSubset name
      || (match parent with
          | some p => p.isFlagOrSubset name
          | none => false)
      || (set.subsets.toList.any (fun sub => sub.isFlagOrSubset name)))

/-- `isKindCompatible` of `utils.go`, on the model's kinds: bool and string
match only themselves, numbers are mutually compatible. -/
def isKindCompatible (k1 : SinkKind) (k2 : ValKind) : Bool :=
  match k1, k2 with
  | .kbool, .vbool => true
  | .kstr, .vstr => true
  | .knum, .vnum => true
  | _, _ => false

/-- `register.updateFlagDefault`: the default value's dynamic type must be
compatible with the sink (slice defaults for slice sinks, matching element
kinds). -/
def updateFlagDefaultOk (fl : Flag) (d : DefVal) : Bool :=
  match d, isSlicePtr fl.Ptr with
  | .slice k _, true => isKindCompatible (sinkKind fl.Ptr) k
  | .single k _, false => isKindCompatible (sinkKind fl.Ptr) k
  | _, _ => false

def addIndexes (indexes : List (String × Nat)) (keys : List String)
    (index : Nat) : List (String × Nat) :=
  indexes ++ keys.map (fun k => (k, index))

/-- `register.registerFlag` (`register.go`): validate the default value,
reject names already taken at the one-level neighbourhood computed by
`findDuplicates`, then append the flag and index all its names.  (The
`Ptr`-is-a-pointer and `typeName` checks always pass in the model, every
`Sink` being a supported pointee; the selects update is value-preserving
here since `SelVals` is already in converted form.) -/
def registerFlag (parent : Option FlagSet) (set : FlagSet) (flag : Flag) :
    Except PError FlagSet :=
  let defOk :=
    match flag.Default with
    | none => true
    | some d => updateFlagDefaultOk flag d
  if !defOk then .error (.typed .errInvalidType)
  else
    let ns := cleanFlagNames flag.Names
    if findDuplicates parent set ns ≠ [] then
      .error (.typed .errDuplicateFlagRegister)
    else
      let flag' := { flag with Names := String.intercalate ", " ns }
      .ok (FlagSet.mk set.self (set.flags ++ [flag'])
        (addIndexes set.flagIndexes ns set.flags.length)
        set.subsets set.subsetIndexes)

/-- A fresh child node as built by `newFlagSet` inside
`register.registerSet` (self-enable default is the Go `false`). -/
def newChildSet (flag : Flag) : FlagSet :=
  FlagSet.mk { flag with Default := some (.single .vbool "false") } [] [] .nil []

/-- `register.registerSet` (`register.go`): reject empty or duplicate
names, then append a fresh child command and index its names.  The updated
parent set is returned (Go also returns the pointer to the new child, which
is the last entry of `subsets`). -/
def registerSet (parent : Option FlagSet) (set : FlagSet) (flag : Flag) :
    Except PError FlagSet :=
  let ns := cleanFlagNames flag.Names
  let joined := String.intercalate ", " ns
  if joined = "" then .error (.typed .errInvalidNames)
  else if findDuplicates parent set ns ≠ [] then
    .error (.typed .errDuplicateFlagRegister)
  else
    let subsCount := set.subsets.toList.length
    .ok (FlagSet.mk set.self set.flags set.flagIndexes
      (FlagSets.append set.subsets (newChildSet { flag with Names := joined }))
      (addIndexes set.subsetIndexes ns subsCount))

/-! ### Scanner token classification

The scanner source file is absent from the repository snapshot (only its
callers and its output types survive), so the token-classification layer
below is modelled from the specification, §4.1. -/

/-- Modelled from the spec: the scanner's forced-mode state (§4.1 rules 1
and 2): `forcedFlagNext` after a standalone `-` (one argument only),
`forcedValueAll` after a standalone `--` (the remainder). -/
inductive ScanMode where
  | normal
  | forcedFlagNext
  | forcedValueAll
deriving DecidableEq, Repr

def valueTok (s : String) : argument := { Typ := .value, Value := s }

def flagTok (s : String) : argument := { Typ := .flag, Value := s }

def flagTokAttach (n v : String) : argument :=
  { Typ := .flag, Value := n, Attached := v, AttachValid := true }

/-- Split an argument at the first `=` that is neither its first nor its
last character (§4.1 rules 3/4a). -/
def eqSplit (cs : List Char) : Option (List Char × List Char) :=
  match breakOnSep ['='] cs with
  | (_, none) => none
  | (before, some rest) =>
    if before ≠ [] ∧ rest ≠ [] then some (before, rest) else none

/-- Attach a pre-split value to the last flag token of a list (used for the
§4.1 rule 4a name-part re-classification; the spec does not pin down which
split token carries the attachment, and the library's tests only exercise
the single-token case). -/
def attachToLast (v : String) : List argument → List argument
  | [] => []
  | [a] => [{ a with Attached := v, AttachValid := true }]
  | a :: rest => a :: attachToLast v rest

/-- Modelled from the spec: §4.1 rules 4b/4c/4d on the name part of a
single-dash argument (`name` includes the leading dash and has length ≥ 2
when reached from `classifyArg`). -/
def classifyShort (isFlagName : String → Bool) (name : List Char)
    (attach : Option String) : List argument :=
  let tl := name.drop 1
  let base :=
    if tl ≠ [] ∧ tl.all (fun c => isFlagName (String.mk ['-', c])) then
      tl.map (fun c => flagTok (String.mk ['-', c]))
    else
      match tl with
      | c :: restc =>
        if isFlagName (String.mk ['-', c]) ∧ restc ≠ [] then
          [flagTok (String.mk ['-', c]), valueTok (String.mk restc)]
        else
          [flagTok (String.mk name)]
      | [] => [flagTok (String.mk name)]
  match attach with
  | none => base
  | some v => attachToLast v base

/-- Modelled from the spec: §4.1 rules 3–5 for one argument outside the
forced modes (standalone `-`/`--` are handled by the caller).  The modelled
command level has no child commands, so rule 5 classifies every undashed
word as a plain value. -/
def classifyArg (isFlagName : String → Bool) (a : String) : List argument :=
  match a.data with
  | '-' :: '-' :: _ =>
    (match eqSplit a.data with
     | some (n, v) => [flagTokAttach (String.mk n) (String.mk v)]
     | none => [flagTok a])
  | '-' :: _ :: _ =>
    (match eqSplit a.data with
     | some (n, v) => classifyShort isFlagName n (some (String.mk v))
     | none => classifyShort isFlagName a.data none)
  | _ => [valueTok a]

/-- Modelled from the spec: the §4.1 left-to-right classification loop for
one command level, carrying the forced-mode state.  A standalone `-`
(rule 1) forces the next argument to be a flag token unless the `-` is the
final argument, in which case it is itself a plain value; a standalone `--`
(rule 2) forces every remaining argument to be a plain value, with the same
final-argument exception. -/
def scanLevel (isFlagName : String → Bool) : ScanMode → List String → List argument
  | _, [] => []
  | .forcedValueAll, a :: rest => valueTok a :: scanLevel isFlagName .forcedValueAll rest
  | .forcedFlagNext, a :: rest => flagTok a :: scanLevel isFlagName .normal rest
  | .normal, a :: rest =>
    if a = "-" then
      if rest = [] then [valueTok "-"]
      else scanLevel isFlagName .forcedFlagNext rest
    else if a = "--" then
      if rest = [] then [valueTok "--"]
      else scanLevel isFlagName .forcedValueAll rest
    else classifyArg isFlagName a ++ scanLevel isFlagName .normal rest

/-! ### Claim C1 -/

/-- A command with one slice flag `-f`, no positional flags and no overflow
sink. -/
def sliceDemoSet : FlagSet :=
  .mk { Names := "tar", Ptr := .bool false }
    [{ Names := "-f", Ptr := .strSlice [] }] [("-f", 0)] .nil []

/-- C1 (counterexample): a slice flag given three consecutive value tokens
does NOT accumulate them; the resolver closes `-f` after the first value,
and the second value, arriving with no open flag, no positional slot and no
overflow sink, aborts the parse with the `unexpected non-flag value`
error — where the claim predicts a successful parse binding all three
values to `-f`. -/
theorem c1_counterexample :
    resolveFlags (fun _ => "") sliceDemoSet ["tar"]
      [{ Typ := .flag, Value := "-f" }, { Typ := .value, Value := "a" },
       { Typ := .value, Value := "b" }, { Typ := .value, Value := "c" }]
      = .error (.typed .errNonFlagValue) := rfl

/-- C1 (amended): a `ValueToken` applied to the open flag always closes it,
whether or not the sink is a slice; a slice flag instead accumulates values
by being supplied again — a repeated flag token for an applied slice-sink
flag is not a duplicate error and simply reopens the flag. -/
theorem c1_value_closes_even_slice :
    (∀ (cfg : RCfg) (st : RState) (arg : argument) (rest : List argument)
        (j : Nat) (st' : RState),
      arg.Typ = .value → st.openFlag = some j →
      stepArg cfg st arg rest = .ok st' → st'.openFlag = none) ∧
    (∀ (cfg : RCfg) (st : RState) (arg : argument) (rest : List argument)
        (j : Nat) (fl : Flag),
      arg.Typ = .flag → arg.AttachValid = false →
      st.openFlag = none → lookupIdx cfg.flagIndexes arg.Value = some j →
      st.flags.get? j = some fl → isSlicePtr fl.Ptr = true →
      isBoolPtr fl.Ptr = false →
      stepArg cfg st arg rest = .ok { st with openFlag := some j }) := by
  constructor
  · intro cfg st arg rest j st' hty hopen hstep
    simp only [stepArg, hty, hopen] at hstep
    cases h : applyValue st j arg.Value with
    | error e => simp [h] at hstep
    | ok st2 =>
      simp only [h] at hstep
      cases hstep
      rfl
  · intro cfg st arg rest j fl hty hatt hopen hlook hget hslice hbool
    rw [List.get?_eq_getElem?] at hget
    simp [stepArg, hty, hopen, hlook, hget, hatt, hslice, hbool,
      applyLastFlagCheck]

/-- Witness for the amended C1 at concrete inputs. -/
theorem c1_value_closes_even_slice_witness :
    (stepArg (mkRCfg sliceDemoSet)
        { flags := sliceDemoSet.flags, argsAcc := none, applied := [],
          openFlag := some 0, posIdx := 0 }
        { Typ := .value, Value := "a" } [] = .ok
        { flags := [{ Names := "-f", Ptr := .strSlice ["a"] }], argsAcc := none,
          applied := [0], openFlag := none, posIdx := 0 } →
      ({ flags := [{ Names := "-f", Ptr := .strSlice ["a"] }], argsAcc := none,
          applied := [0], openFlag := none, posIdx := 0 } : RState).openFlag = none) ∧
    stepArg (mkRCfg sliceDemoSet)
        { flags := [{ Names := "-f", Ptr := .strSlice ["a"] }], argsAcc := none,
          applied := [0], openFlag := none, posIdx := 0 }
        { Typ := .flag, Value := "-f" } [] = .ok
        { flags := [{ Names := "-f", Ptr := .strSlice ["a"] }], argsAcc := none,
          applied := [0], openFlag := some 0, posIdx := 0 } := by
  constructor
  · exact fun h => c1_value_closes_even_slice.1 (mkRCfg sliceDemoSet) _ _ [] 0 _ rfl rfl h
  · exact c1_value_closes_even_slice.2 (mkRCfg sliceDemoSet) _ _ [] 0
      { Names := "-f", Ptr := .strSlice ["a"] } rfl rfl rfl rfl rfl rfl rfl

/-! ### Claim C2 -/

/-- A command with one positional flag and one registered boolean flag
`-x`, with no overflow sink. -/
def positionalDemoSet : FlagSet :=
  .mk { Names := "cp", Ptr := .bool false }
    [{ Names := "@", Ptr := .str "" }, { Names := "-x", Ptr := .bool false }]
    [("@", 0), ("-x", 1)] .nil []

/-- C2 (counterexample): a value token arriving while a positional slot is
still unbound is NOT bound to that slot when a flag token remains later and
the overflow sink is absent (hence not marked anywhere): the code's
trailing-only check fires before the positional branch and aborts with the
`unexpected non-flag value` error — where the claim predicts the value to
be bound to the positional flag and the parse to succeed. -/
theorem c2_counterexample :
    resolveFlags (fun _ => "") positionalDemoSet ["cp"]
      [{ Typ := .value, Value := "v" }, { Typ := .flag, Value := "-x" }]
      = .error (.typed .errNonFlagValue) := rfl

/-- C2 (amended): for a `ValueToken` with no open flag, the resolver first
applies the trailing-only check — if the overflow sink is not marked
"anywhere" (including when it is absent) and a `FlagToken` remains in the
unconsumed remainder, this is an `UnexpectedValue` error even when a
positional slot remains; it is likewise an error when no positional slot
remains and no overflow sink exists.  Otherwise the value is bound to the
next positional slot in declaration order if one remains, else appended to
the overflow sink. -/
theorem c2_nonflag_value_routing :
    ∀ (cfg : RCfg) (st : RState) (arg : argument) (rest : List argument),
      arg.Typ = .value → st.openFlag = none →
      (((cfg.positional.length ≤ st.posIdx ∧ st.argsAcc = none) ∨
          (cfg.argsAnywhere = false ∧ hasFlag rest = true)) →
        stepArg cfg st arg rest = .error (.typed .errNonFlagValue)) ∧
      ((cfg.argsAnywhere = true ∨ hasFlag rest = false) →
        ∀ j, st.posIdx < cfg.positional.length →
          cfg.positional.get? st.posIdx = some j →
          stepArg cfg st arg rest =
            match applyValue st j arg.Value with
            | .error e => .error e
            | .ok st' => .ok { st' with posIdx := st'.posIdx + 1 }) ∧
      ((cfg.argsAnywhere = true ∨ hasFlag rest = false) →
        ∀ l, cfg.positional.length ≤ st.posIdx → st.argsAcc = some l →
          stepArg cfg st arg rest = .ok { st with argsAcc := some (l ++ [arg.Value]) }) := by
  intro cfg st arg rest hty hopen
  have hstep : stepArg cfg st arg rest = appendNonFlagArg cfg st arg rest := by
    simp [stepArg, hty, hopen]
  refine ⟨?_, ?_, ?_⟩
  · intro hcond
    rw [hstep]
    unfold appendNonFlagArg
    rcases hcond with ⟨hpos, hacc⟩ | ⟨hany, hfl⟩
    · have : (decide (cfg.positional.length ≤ st.posIdx) && st.argsAcc.isNone) = true := by
        simp [hpos, hacc]
      rw [this]
      simp
    · have : (!cfg.argsAnywhere && hasFlag rest) = true := by simp [hany, hfl]
      rw [this]
      simp
  · intro hsafe j hlt hget
    rw [hstep]
    unfold appendNonFlagArg
    have h1 : (decide (cfg.positional.length ≤ st.posIdx) && st.argsAcc.isNone) = false := by
      simp [Nat.not_le.mpr hlt]
    have h2 : (!cfg.argsAnywhere && hasFlag rest) = false := by
      rcases hsafe with h | h <;> simp [h]
    rw [h1, h2]
    have hj : cfg.positional[st.posIdx] = j := by
      have h := hget
      rw [List.get?_eq_getElem?, List.getElem?_eq_getElem hlt] at h
      exact Option.some.inj h
    simp [hlt, hget, hj]
  · intro hsafe l hle hacc
    rw [hstep]
    unfold appendNonFlagArg
    have h1 : (decide (cfg.positional.length ≤ st.posIdx) && st.argsAcc.isNone) = false := by
      simp [hacc]
    have h2 : (!cfg.argsAnywhere && hasFlag rest) = false := by
      rcases hsafe with h | h <;> simp [h]
    rw [h1, h2]
    simp [Nat.not_lt.mpr hle, hacc]

/-- Witness for the amended C2 at concrete inputs: with a later flag token
and no overflow sink the value is rejected; with no later flag token it is
bound to the positional slot. -/
theorem c2_nonflag_value_routing_witness :
    stepArg (mkRCfg positionalDemoSet) (initState positionalDemoSet)
        { Typ := .value, Value := "v" } [{ Typ := .flag, Value := "-x" }]
      = .error (.typed .errNonFlagValue) ∧
    stepArg (mkRCfg positionalDemoSet) (initState positionalDemoSet)
        { Typ := .value, Value := "v" } []
      = .ok { flags := [{ Names := "@", Ptr := .str "v" },
                        { Names := "-x", Ptr := .bool false }],
              argsAcc := none, applied := [0], openFlag := none, posIdx := 1 } := by
  constructor
  · exact (c2_nonflag_value_routing (mkRCfg positionalDemoSet)
      (initState positionalDemoSet) { Typ := .value, Value := "v" }
      [{ Typ := .flag, Value := "-x" }] rfl rfl).1 (Or.inr ⟨rfl, rfl⟩)
  · have h := ((c2_nonflag_value_routing (mkRCfg positionalDemoSet)
      (initState positionalDemoSet) { Typ := .value, Value := "v" }
      [] rfl rfl).2.1 (Or.inr rfl) 0 (by decide) rfl)
    rw [h]
    rfl

/-! ### Claim C3 -/

/-- C3 (counterexample): applying the text `"300"` to an `int8`-sinked flag
succeeds — `ParseFloat` accepts it and the narrowing stores it without any
range validation — although `300` is out of range for the sink's concrete
width, where the claim requires an error. -/
theorem c3_counterexample :
    applyValToPtr "-n" (.num .i8 0) "300" none = .ok (.num .i8 300) ∧
    numInRange .i8 300 = false := by decide

/-- C3 (amended): for numeric sinks (single or slice) without a selectable
set, value application parses the text as a 64-bit floating value and
narrows to the sink's concrete width without validating that range: it
returns an error exactly when the text does not parse as a float64
(non-numeric text, or magnitude outside float64's own range); a value
representable in float64 but out of the sink's narrower width is stored
without error. -/
theorem c3_numeric_error_iff_parse_fails :
    (∀ (names : String) (ty : NumTy) (v : ℚ) (val : String) (q : ℚ),
      goParseFloat val = some q →
      applyValToPtr names (.num ty v) val none = .ok (.num ty q)) ∧
    (∀ (names : String) (ty : NumTy) (v : ℚ) (val : String),
      goParseFloat val = none →
      applyValToPtr names (.num ty v) val none = .error (.conv .badNum)) ∧
    (∀ (names : String) (ty : NumTy) (vs : List ℚ) (val : String) (q : ℚ),
      goParseFloat val = some q →
      applyValToPtr names (.numSlice ty vs) val none = .ok (.numSlice ty (vs ++ [q]))) ∧
    (∀ (names : String) (ty : NumTy) (vs : List ℚ) (val : String),
      goParseFloat val = none →
      applyValToPtr names (.numSlice ty vs) val none = .error (.conv .badNum)) := by
  refine ⟨?_, ?_, ?_, ?_⟩ <;>
    intros names ty v val <;>
    first
      | (intro q h; simp [applyValToPtr, applyValToPtrCore, isBoolPtr, h])
      | (intro h; simp [applyValToPtr, applyValToPtrCore, isBoolPtr, h])

/-- Witness for the amended C3 at concrete inputs. -/
theorem c3_numeric_error_iff_parse_fails_witness :
    applyValToPtr "-n" (.num .i8 0) "5" none = .ok (.num .i8 5) ∧
    applyValToPtr "-n" (.num .i8 0) "zz" none = .error (.conv .badNum) := by
  constructor
  · exact c3_numeric_error_iff_parse_fails.1 "-n" .i8 0 "5" 5 (by decide)
  · exact c3_numeric_error_iff_parse_fails.2.1 "-n" .i8 0 "zz" (by decide)

/-! ### Claim C5 -/

/-- The effect of applying the literal `"true"` to a boolean sink. -/
def boolTrueSink : Sink → Sink
  | .bool _ => .bool true
  | .boolSlice bs => .boolSlice (bs ++ [true])
  | s => s

/-- Applying `"true"` to a boolean sink with no selectable set always
succeeds. -/
theorem applyValToPtr_bool_true (n : String) (s : Sink)
    (h : isBoolPtr s = true) :
    applyValToPtr n s "true" none = .ok (boolTrueSink s) := by
  cases s <;> simp [isBoolPtr] at h <;> rfl

/-- C5: a flag token whose flag has a boolean sink and carries no valid
attached value applies `"true"` immediately and closes the flag, so that a
following `ValueToken` is not consumed by it and instead falls through to
the positional/overflow handling (`appendNonFlagArg`). -/
theorem c5_bool_flag_immediate_true :
    ∀ (cfg : RCfg) (st : RState) (arg : argument) (rest : List argument)
      (j : Nat) (fl : Flag),
      arg.Typ = .flag → arg.AttachValid = false → st.openFlag = none →
      lookupIdx cfg.flagIndexes arg.Value = some j →
      st.flags.get? j = some fl → isBoolPtr fl.Ptr = true →
      fl.Selects = none → st.applied.contains j = false →
      ∃ st', stepArg cfg st arg rest = .ok st' ∧
        st'.openFlag = none ∧
        st'.flags.get? j = some { fl with Ptr := boolTrueSink fl.Ptr } ∧
        ∀ (v : argument) (rest' : List argument), v.Typ = .value →
          stepArg cfg st' v rest' = appendNonFlagArg cfg st' v rest' := by
  intro cfg st arg rest j fl hty hatt hopen hlook hget hbool hsel happ
  have hlen : j < st.flags.length := by
    rw [List.get?_eq_getElem?] at hget
    exact (List.getElem?_eq_some.mp hget).1
  have happ' : j ∉ st.applied := by simpa using happ
  have happly : applyValue st j "true" = .ok
      { st with applied := j :: st.applied,
                flags := st.flags.set j { fl with Ptr := boolTrueSink fl.Ptr } } := by
    unfold applyValue
    rw [hget]
    simp only [hsel, applyValToPtr_bool_true fl.Names fl.Ptr hbool]
  refine ⟨RState.mk (st.flags.set j { fl with Ptr := boolTrueSink fl.Ptr })
      st.argsAcc (j :: st.applied) none st.posIdx, ?_, rfl, ?_, ?_⟩
  · rw [List.get?_eq_getElem?] at hget
    simp [stepArg, hty, hopen, hlook, hget, hatt, hbool, happ',
      applyLastFlagCheck, happly]
  · simp [List.get?_eq_getElem?, List.getElem?_set_self hlen]
  · intro v rest' hv
    simp [stepArg, hv]

/-- Witness for C5 at concrete inputs (a boolean flag `-z`). -/
theorem c5_bool_flag_immediate_true_witness :
    ∃ st', stepArg { flagIndexes := [("-z", 0)], positional := [], argsAnywhere := false }
        { flags := [{ Names := "-z", Ptr := .bool false }], argsAcc := none,
          applied := [], openFlag := none, posIdx := 0 }
        { Typ := .flag, Value := "-z" } [] = .ok st' ∧
      st'.openFlag = none ∧
      st'.flags.get? 0 = some { Names := "-z", Ptr := .bool true } ∧
      ∀ (v : argument) (rest' : List argument), v.Typ = .value →
        stepArg { flagIndexes := [("-z", 0)], positional := [], argsAnywhere := false }
          st' v rest' =
        appendNonFlagArg { flagIndexes := [("-z", 0)], positional := [], argsAnywhere := false }
          st' v rest' :=
  c5_bool_flag_immediate_true
    { flagIndexes := [("-z", 0)], positional := [], argsAnywhere := false }
    { flags := [{ Names := "-z", Ptr := .bool false }], argsAcc := none,
      applied := [], openFlag := none, posIdx := 0 }
    { Typ := .flag, Value := "-z" } [] 0 { Names := "-z", Ptr := .bool false }
    rfl rfl rfl rfl rfl rfl rfl rfl

/-! ### Claim C6 -/

/-- C6: with no flag pending, a flag token that matches no registered flag
at the current level is the `UnknownFlag` error, and one that matches an
already-applied non-slice flag is the `DuplicateFlag` error. -/
theorem c6_duplicate_and_unknown :
    ∀ (cfg : RCfg) (st : RState) (arg : argument) (rest : List argument),
      arg.Typ = .flag → st.openFlag = none →
      (lookupIdx cfg.flagIndexes arg.Value = none →
        stepArg cfg st arg rest = .error (.typed .errFlagNotFound)) ∧
      (∀ (j : Nat) (fl : Flag),
        lookupIdx cfg.flagIndexes arg.Value = some j →
        st.flags.get? j = some fl →
        st.applied.contains j = true → isSlicePtr fl.Ptr = false →
        stepArg cfg st arg rest = .error (.typed .errDuplicateFlagParsed)) := by
  intro cfg st arg rest hty hopen
  constructor
  · intro hnone
    simp [stepArg, hty, hopen, hnone, applyLastFlagCheck]
  · intro j fl hlook hget hdup hslice
    rw [List.get?_eq_getElem?] at hget
    have hdup' : j ∈ st.applied := by simpa using hdup
    simp [stepArg, hty, hopen, hlook, hget, hdup', hslice, applyLastFlagCheck]

/-- Witness for C6 at concrete inputs. -/
theorem c6_duplicate_and_unknown_witness :
    stepArg { flagIndexes := [("-a", 0)], positional := [], argsAnywhere := false }
        { flags := [{ Names := "-a", Ptr := .str "x" }], argsAcc := none,
          applied := [], openFlag := none, posIdx := 0 }
        { Typ := .flag, Value := "-b" } []
      = .error (.typed .errFlagNotFound) ∧
    stepArg { flagIndexes := [("-a", 0)], positional := [], argsAnywhere := false }
        { flags := [{ Names := "-a", Ptr := .str "x" }], argsAcc := none,
          applied := [0], openFlag := none, posIdx := 0 }
        { Typ := .flag, Value := "-a" } []
      = .error (.typed .errDuplicateFlagParsed) := by
  constructor
  · exact (c6_duplicate_and_unknown
      { flagIndexes := [("-a", 0)], positional := [], argsAnywhere := false }
      { flags := [{ Names := "-a", Ptr := .str "x" }], argsAcc := none,
        applied := [], openFlag := none, posIdx := 0 }
      { Typ := .flag, Value := "-b" } [] rfl rfl).1 rfl
  · exact (c6_duplicate_and_unknown
      { flagIndexes := [("-a", 0)], positional := [], argsAnywhere := false }
      { flags := [{ Names := "-a", Ptr := .str "x" }], argsAcc := none,
        applied := [0], openFlag := none, posIdx := 0 }
      { Typ := .flag, Value := "-a" } [] rfl rfl).2 0
      { Names := "-a", Ptr := .str "x" } rfl rfl rfl rfl

/-! ### Claim C7 -/

/-- An empty root command for the C7 construction. -/
def c7root0 : FlagSet := .mk { Names := "root", Ptr := .bool false } [] [] .nil []

/-- The flag `-x`, registered twice in the C7 construction. -/
def c7xf : Flag := { Names := "-x", Ptr := .bool false }

/-- The fresh child `a` created by `registerSet` on the root. -/
def c7a0 : FlagSet := newChildSet { Names := "a", Ptr := .bool false }

/-- The fresh grandchild `b` created by `registerSet` on `a`. -/
def c7b0 : FlagSet := newChildSet { Names := "b", Ptr := .bool false }

/-- C7 (counterexample): running the registration sequence the structure
walker performs — root gains flag `-x`, root gains child `a` (parent
threaded one level, as `registerStructure` does), `a` gains child `b`, and
then `-x` is registered into the grandchild `b` with parent `a` — every
step succeeds, although the resulting tree holds `-x` both at the root and
at its grandchild: duplicate detection only consults the command itself,
its immediate parent and its direct children, so the claimed
whole-ancestor/descendant uniqueness invariant is not enforced. -/
theorem c7_counterexample :
    ∃ (rootX rootXA aWithB bX : FlagSet),
      registerFlag none c7root0 c7xf = .ok rootX ∧
      registerSet none rootX { Names := "a", Ptr := .bool false } = .ok rootXA ∧
      rootXA.subsets.get? 0 = some c7a0 ∧
      registerSet (some rootXA) c7a0 { Names := "b", Ptr := .bool false } = .ok aWithB ∧
      aWithB.subsets.get? 0 = some c7b0 ∧
      registerFlag (some aWithB) c7b0 c7xf = .ok bX ∧
      rootX.isFlag "-x" = true ∧ bX.isFlag "-x" = true :=
  ⟨_, _, _, _, rfl, rfl, rfl, rfl, rfl, rfl, rfl, rfl⟩

/-- C7 (amended): at registration time a new flag's names are rejected as
duplicates exactly when one of them is already a flag or child-command name
of the target command itself, of the supplied immediate parent (when one is
supplied, as the structure walker does), or of one of the target's direct
children; more distant ancestors and descendants are not consulted, so
cross-level duplicates beyond this one-level neighbourhood are accepted. -/
theorem c7_duplicate_one_level :
    ∀ (parent : Option FlagSet) (set : FlagSet) (flag : Flag),
      flag.Default = none →
      (registerFlag parent set flag = .error (.typed .errDuplicateFlagRegister) ↔
        ∃ n ∈ cleanFlagNames flag.Names,
          set.isFlagOrSubset n = true ∨
          (∃ p, parent = some p ∧ p.isFlagOrSubset n = true) ∨
          ∃ sub ∈ set.subsets.toList, sub.isFlagOrSubset n = true) := by
  intro parent set flag hdef
  have hiff : registerFlag parent set flag = .error (.typed .errDuplicateFlagRegister) ↔
      findDuplicates parent set (cleanFlagNames flag.Names) ≠ [] := by
    by_cases hd : findDuplicates parent set (cleanFlagNames flag.Names) = [] <;>
      simp [registerFlag, hdef, hd]
  rw [hiff]
  unfold findDuplicates
  rw [ne_eq, List.filter_eq_nil_iff]
  push_neg
  constructor
  · rintro ⟨n, hn, hp⟩
    refine ⟨n, hn, ?_⟩
    simp only [Bool.or_eq_true] at hp
    rcases hp with (h1 | h2) | h3
    · exact Or.inl h1
    · cases parent with
      | none => simp at h2
      | some p => exact Or.inr (Or.inl ⟨p, rfl, by simpa using h2⟩)
    · refine Or.inr (Or.inr ?_)
      simpa [List.any_eq_true] using h3
  · rintro ⟨n, hn, hp⟩
    refine ⟨n, hn, ?_⟩
    simp only [Bool.or_eq_true]
    rcases hp with h1 | ⟨p, hpar, h2⟩ | ⟨sub, hsub, h3⟩
    · exact Or.inl (Or.inl h1)
    · subst hpar
      exact Or.inl (Or.inr (by simpa using h2))
    · exact Or.inr (by simpa [List.any_eq_true] using ⟨sub, hsub, h3⟩)

/-- Witness for the amended C7 at a concrete input: registering `-x` a
second time into the same command is rejected as a duplicate. -/
theorem c7_duplicate_one_level_witness :
    registerFlag none
        (.mk { Names := "root", Ptr := .bool false }
          [{ Names := "-x", Ptr := .bool false }] [("-x", 0)] .nil [])
        { Names := "-x", Ptr := .str "" }
      = .error (.typed .errDuplicateFlagRegister) :=
  (c7_duplicate_one_level none
    (.mk { Names := "root", Ptr := .bool false }
      [{ Names := "-x", Ptr := .bool false }] [("-x", 0)] .nil [])
    { Names := "-x", Ptr := .str "" } rfl).mpr
    ⟨"-x", by decide, Or.inl (by decide)⟩

/-! ### Claim C8 -/

/-- In forced-value mode every remaining argument is emitted verbatim as a
plain value token. -/
theorem scanLevel_forcedValue_map (isFlagName : String → Bool) :
    ∀ l, scanLevel isFlagName .forcedValueAll l = l.map valueTok
  | [] => rfl
  | a :: t => by
    simp [scanLevel, scanLevel_forcedValue_map isFlagName t]

/-- C8: a standalone `--` encountered outside the forced modes switches the
scanner into forced-value mode for the whole remainder — every following
argument, including ones that look like flags, further `--` markers and
`name=value` forms, is classified verbatim as a plain value token — and a
`--` that is the very last argument is itself emitted as a plain value. -/
theorem c8_forced_value_region :
    ∀ (isFlagName : String → Bool) (rest : List String),
      (rest ≠ [] →
        scanLevel isFlagName .normal ("--" :: rest) = rest.map valueTok) ∧
      scanLevel isFlagName .normal ["--"] = [valueTok "--"] := by
  intro isFlagName rest
  constructor
  · intro hne
    cases rest with
    | nil => exact absurd rfl hne
    | cons a t =>
      show scanLevel isFlagName .normal ("--" :: a :: t) = _
      rw [scanLevel]
      norm_num
      exact scanLevel_forcedValue_map isFlagName (a :: t)
  · rfl

/-- Witness for C8 at the specification's own example: after `--`, the
arguments `-a=b`, `--` and `-b.md` all become verbatim value tokens. -/
theorem c8_forced_value_region_witness :
    scanLevel (fun s => s == "-files") .normal ["--", "-a=b", "--", "-b.md"]
      = [valueTok "-a=b", valueTok "--", valueTok "-b.md"] :=
  (c8_forced_value_region (fun s => s == "-files") ["-a=b", "--", "-b.md"]).1
    (by simp)

/-! ### Claim C10 -/

/-- When the first-encountered child name matches no entry of the child-run
list, the `lastSubset` accumulator passes through the loop unchanged. -/
theorem resolveSubsets_lastAcc_of_not_hasKey
    (envF : String → String) (ctx : List String) (first : String) :
    ∀ (sets : SetsList) (f : FlagSet) (lastAcc : Option FlagSet)
      (g : FlagSet) (l : Option FlagSet),
      sets.hasKey first = false →
      resolveSubsets envF f ctx sets first lastAcc = .ok (g, l) →
      l = lastAcc
  | .nil, f, lastAcc, g, l, _, hres => by
    rw [resolveSubsets] at hres
    cases hres
    rfl
  | .cons name sub tail, f, lastAcc, g, l, hkey, hres => by
    rw [SetsList.hasKey, Bool.or_eq_false_iff] at hkey
    obtain ⟨h1, h2⟩ := hkey
    rw [resolveSubsets] at hres
    cases hg : f.subsets.get? ((lookupIdx f.subsetIndexes name).getD 0) with
    | none => simp only [hg] at hres; cases hres
    | some set =>
      simp only [hg] at hres
      cases ha : applyVals set.self ["true"] with
      | error e => simp only [ha] at hres; cases hres
      | ok self' =>
        simp only [ha] at hres
        cases hr : resolveSet envF (set.withSelf self') ctx sub with
        | error e => simp only [hr] at hres; cases hres
        | ok p =>
          simp only [hr, h1] at hres
          exact resolveSubsets_lastAcc_of_not_hasKey envF ctx first
            tail _ _ _ _ h2 hres

/-- `FlagSets.set` leaves every other slot unchanged. -/
theorem FlagSets.get?_set_ne :
    ∀ (s : FlagSets) (i j : Nat) (g : FlagSet), i ≠ j →
      (s.set i g).get? j = s.get? j
  | .nil, _, _, _, _ => rfl
  | .cons _ _, 0, 0, _, hne => absurd rfl hne
  | .cons _ _, 0, _ + 1, _, _ => rfl
  | .cons _ _, _ + 1, 0, _, _ => rfl
  | .cons _ t, i + 1, j + 1, g, hne =>
    FlagSets.get?_set_ne t i j g (fun e => hne (by rw [e]))

/-- `FlagSets.set` stores at an existing slot. -/
theorem FlagSets.get?_set_self :
    ∀ (s : FlagSets) (i : Nat) (x g : FlagSet),
      s.get? i = some x → (s.set i g).get? i = some g
  | .nil, _, _, _, h => by rw [FlagSets.get?] at h; cases h
  | .cons _ _, 0, _, _, _ => rfl
  | .cons _ t, i + 1, x, g, h => FlagSets.get?_set_self t i x g h

/-- A name with a child-run entry contributes its slot index to the
per-level index list. -/
theorem idxs_contains_of_hasKey (m : List (String × Nat)) :
    ∀ (sets : SetsList) (k : String), sets.hasKey k = true →
      (SetsList.idxs m sets).contains ((lookupIdx m k).getD 0) = true
  | .nil, k, hk => by rw [SetsList.hasKey] at hk; cases hk
  | .cons n sub t, k, hk => by
    rw [SetsList.hasKey] at hk
    rw [SetsList.idxs, List.contains_cons]
    cases hnk : n == k with
    | false =>
      rw [hnk, Bool.false_or] at hk
      rw [idxs_contains_of_hasKey m t k hk, Bool.or_true]
    | true =>
      have hek : n = k := eq_of_beq hnk
      rw [hek, beq_self_eq_true, Bool.true_or]

/-- `chainGoodSets` reads only the `subsets` and `subsetIndexes`
components of the command node. -/
theorem chainGoodSets_congr :
    ∀ (sets : SetsList) (f g : FlagSet),
      g.subsets = f.subsets → g.subsetIndexes = f.subsetIndexes →
      chainGoodSets g sets = chainGoodSets f sets
  | .nil, _, _, _, _ => rfl
  | .cons n sub t, f, g, h1, h2 => by
    rw [chainGoodSets, chainGoodSets, h1, h2,
      chainGoodSets_congr t f g h1 h2]

/-- `chainGood` ignores the node's self flag. -/
theorem chainGood_withSelf :
    ∀ (f : FlagSet) (x : Flag) (args : scanArgs),
      chainGood (f.withSelf x) args = chainGood f args
  | .mk s fl fi su si, x, .mk a sets first => by
    rw [FlagSet.withSelf, chainGood, chainGood]
    simp only [FlagSet.subsetIndexes]
    rw [chainGoodSets_congr sets (.mk s fl fi su si) (.mk x fl fi su si)
      rfl rfl]

/-- Storing into a slot that a child-run list does not name leaves that
list's `chainGoodSets` unchanged. -/
theorem chainGoodSets_set_ne :
    ∀ (t : SetsList) (s : Flag) (fl : List Flag) (fi : List (String × Nat))
      (su : FlagSets) (si : List (String × Nat)) (idx : Nat) (g0 : FlagSet),
      (SetsList.idxs si t).contains idx = false →
      chainGoodSets (.mk s fl fi (su.set idx g0) si) t
        = chainGoodSets (.mk s fl fi su si) t
  | .nil, _, _, _, _, _, _, _, _ => rfl
  | .cons n sub tl, s, fl, fi, su, si, idx, g0, hc => by
    rw [SetsList.idxs, List.contains_cons, Bool.or_eq_false_iff] at hc
    obtain ⟨h1, h2⟩ := hc
    rw [chainGoodSets, chainGoodSets]
    simp only [FlagSet.subsets, FlagSet.subsetIndexes]
    have hne : idx ≠ (lookupIdx si n).getD 0 :=
      fun e => by rw [e, beq_self_eq_true] at h1; cases h1
    rw [FlagSets.get?_set_ne su idx ((lookupIdx si n).getD 0) g0 hne]
    rw [chainGoodSets_set_ne tl s fl fi su si idx g0 h2]

/-- When the first-encountered name has no child-run entry, the chain
stops at the current node. -/
theorem chainLeafSets_no_key :
    ∀ (sets : SetsList) (g : FlagSet) (first : String),
      sets.hasKey first = false → chainLeafSets g sets first = g
  | .nil, _, _, _ => rfl
  | .cons n sub t, g, first, hk => by
    rw [SetsList.hasKey, Bool.or_eq_false_iff] at hk
    obtain ⟨h1, h2⟩ := hk
    rw [chainLeafSets]
    simp only [h1]
    exact chainLeafSets_no_key t g first h2

/-- `resolveFlags` rewrites only the flag array and the overflow sink of a
node; its child commands and both index maps are untouched. -/
theorem resolveFlags_preserves (envF : String → String) (f : FlagSet)
    (ctx : List String) (args : List argument) (g : FlagSet)
    (h : resolveFlags envF f ctx args = .ok g) :
    g.subsets = f.subsets ∧ g.subsetIndexes = f.subsetIndexes := by
  rw [resolveFlags] at h
  cases h1 : resolveLoop (mkRCfg f) (initState f) args with
  | error e => simp only [h1] at h; cases h
  | ok st =>
    simp only [h1] at h
    cases h2 : applyLastFlagCheck st with
    | error e => simp only [h2] at h; cases h
    | ok u =>
      simp only [h2] at h
      cases h3 : applyEnvDefLoop envF st.applied 0 st.flags with
      | error e => simp only [h3] at h; cases h
      | ok flags2 =>
        simp only [h3] at h
        cases h
        cases f with
        | mk s fl fi su si => exact ⟨rfl, rfl⟩

/-- The `resolveSet` child loop preserves the `subsetIndexes` map and
every `subsets` slot that its entries do not name. -/
theorem resolveSubsets_preserves (envF : String → String) (ctx : List String)
    (first : String) :
    ∀ (sets : SetsList) (f : FlagSet) (lastAcc : Option FlagSet)
      (g : FlagSet) (l : Option FlagSet),
      resolveSubsets envF f ctx sets first lastAcc = .ok (g, l) →
      g.subsetIndexes = f.subsetIndexes ∧
      ∀ (idx : Nat),
        (SetsList.idxs f.subsetIndexes sets).contains idx = false →
        g.subsets.get? idx = f.subsets.get? idx
  | .nil, f, lastAcc, g, l, hres => by
    rw [resolveSubsets] at hres
    cases hres
    exact ⟨rfl, fun _ _ => rfl⟩
  | .cons name sub tail, f, lastAcc, g, l, hres => by
    rw [resolveSubsets] at hres
    cases hg : f.subsets.get? ((lookupIdx f.subsetIndexes name).getD 0) with
    | none => simp only [hg] at hres; cases hres
    | some set =>
      simp only [hg] at hres
      cases ha : applyVals set.self ["true"] with
      | error e => simp only [ha] at hres; cases hres
      | ok self2 =>
        simp only [ha] at hres
        cases hr : resolveSet envF (set.withSelf self2) ctx sub with
        | error e => simp only [hr] at hres; cases hres
        | ok p =>
          obtain ⟨set2, lastc⟩ := p
          simp only [hr] at hres
          have ih := resolveSubsets_preserves envF ctx first tail _ _ _ _ hres
          constructor
          · exact ih.1
          · intro idx hc
            rw [SetsList.idxs, List.contains_cons, Bool.or_eq_false_iff] at hc
            obtain ⟨hc1, hc2⟩ := hc
            have hne : (lookupIdx f.subsetIndexes name).getD 0 ≠ idx :=
              fun e => by rw [e, beq_self_eq_true] at hc1; cases hc1
            have hstep := FlagSets.get?_set_ne f.subsets
              ((lookupIdx f.subsetIndexes name).getD 0) idx set2 hne
            exact (ih.2 idx hc2).trans hstep

mutual
/-- On a successful `resolveSet` of a well-formed child-run tree, the
returned `lastSubset` is exactly the node reached by following the
first-encountered child chain through the resolved result. -/
theorem resolveSet_chain (envF : String → String) :
    ∀ (args : scanArgs) (f : FlagSet) (ctx : List String)
      (g : FlagSet) (l : Option FlagSet),
      resolveSet envF f ctx args = .ok (g, l) →
      chainGood f args = true →
      l = some (chainLeaf g args)
  | .mk fl sets first, f, ctx, g, l, hres, hgood => by
    rw [resolveSet] at hres
    rw [chainGood, Bool.and_eq_true] at hgood
    obtain ⟨hnd, hgs⟩ := hgood
    cases hf : resolveFlags envF f (ctx ++ [f.self.Names]) (fl.drop 1) with
    | error e => simp only [hf] at hres; cases hres
    | ok f2 =>
      simp only [hf] at hres
      cases hs : resolveSubsets envF f2 (ctx ++ [f.self.Names]) sets first
          none with
      | error e => simp only [hs] at hres; cases hres
      | ok p =>
        obtain ⟨f3, last⟩ := p
        simp only [hs] at hres
        cases hres
        have hpre := resolveFlags_preserves envF f (ctx ++ [f.self.Names])
          (fl.drop 1) f2 hf
        have hnd2 : natNodup (SetsList.idxs f2.subsetIndexes sets) = true := by
          rw [hpre.2]; exact hnd
        have hgs2 : chainGoodSets f2 sets = true :=
          (chainGoodSets_congr sets f f2 hpre.1 hpre.2).trans hgs
        rw [chainLeaf]
        cases hk : sets.hasKey first with
        | true =>
          have hlast := resolveSubsets_chain envF sets f2
            (ctx ++ [f.self.Names]) first none g last hs hnd2 hgs2 hk
          rw [hlast, Option.getD_some]
        | false =>
          have hlast := resolveSubsets_lastAcc_of_not_hasKey envF
            (ctx ++ [f.self.Names]) first sets f2 none g last hk hs
          rw [hlast, Option.getD_none, chainLeafSets_no_key sets g first hk]
/-- The loop invariant behind `resolveSet_chain`: when the
first-encountered name has a child-run entry, the accumulator leaving the
`resolveSet` child loop holds that entry's chain leaf, regardless of the
accumulator it entered with. -/
theorem resolveSubsets_chain (envF : String → String) :
    ∀ (sets : SetsList) (f : FlagSet) (ctx : List String) (first : String)
      (lastAcc : Option FlagSet) (g : FlagSet) (l : Option FlagSet),
      resolveSubsets envF f ctx sets first lastAcc = .ok (g, l) →
      natNodup (SetsList.idxs f.subsetIndexes sets) = true →
      chainGoodSets f sets = true →
      sets.hasKey first = true →
      l = some (chainLeafSets g sets first)
  | .nil, f, ctx, first, lastAcc, g, l, _, _, _, hk => by
    rw [SetsList.hasKey] at hk
    cases hk
  | .cons name sub tail, f, ctx, first, lastAcc, g, l, hres, hnd, hgs, hk => by
    rw [resolveSubsets] at hres
    rw [chainGoodSets, Bool.and_eq_true] at hgs
    obtain ⟨hchild, htail⟩ := hgs
    rw [SetsList.idxs, natNodup] at hnd
    cases hct : (SetsList.idxs f.subsetIndexes tail).contains
        ((lookupIdx f.subsetIndexes name).getD 0) with
    | true => simp only [hct] at hnd; cases hnd
    | false =>
      simp only [hct] at hnd
      cases hg : f.subsets.get? ((lookupIdx f.subsetIndexes name).getD 0) with
      | none => simp only [hg] at hres; cases hres
      | some set =>
        simp only [hg] at hres
        simp only [hg] at hchild
        cases ha : applyVals set.self ["true"] with
        | error e => simp only [ha] at hres; cases hres
        | ok self2 =>
          simp only [ha] at hres
          cases hr : resolveSet envF (set.withSelf self2) ctx sub with
          | error e => simp only [hr] at hres; cases hres
          | ok p =>
            obtain ⟨set2, lastc⟩ := p
            simp only [hr] at hres
            cases hnf : name == first with
            | true =>
              simp only [hnf] at hres
              have hname : name = first := eq_of_beq hnf
              subst hname
              have hkt : tail.hasKey name = false := by
                cases hkt2 : tail.hasKey name with
                | false => rfl
                | true =>
                  have hcc := idxs_contains_of_hasKey f.subsetIndexes tail
                    name hkt2
                  rw [hcc] at hct
                  cases hct
              have hgood2 : chainGood (set.withSelf self2) sub = true :=
                (chainGood_withSelf set self2 sub).trans hchild
              have hlc := resolveSet_chain envF sub (set.withSelf self2) ctx
                set2 lastc hr hgood2
              have hlast : l = some (Option.getD lastc set2) :=
                resolveSubsets_lastAcc_of_not_hasKey envF ctx name tail
                  _ _ g l hkt hres
              have hpres := resolveSubsets_preserves envF ctx name tail
                _ _ g l hres
              have hsi : g.subsetIndexes = f.subsetIndexes := hpres.1
              have hgj : g.subsets.get?
                  ((lookupIdx f.subsetIndexes name).getD 0) = some set2 :=
                (hpres.2 ((lookupIdx f.subsetIndexes name).getD 0) hct).trans
                  (FlagSets.get?_set_self f.subsets
                    ((lookupIdx f.subsetIndexes name).getD 0) set set2 hg)
              rw [chainLeafSets]
              simp only [beq_self_eq_true, hsi, hgj]
              rw [hlast, hlc, Option.getD_some]
            | false =>
              simp only [hnf] at hres
              rw [SetsList.hasKey, hnf, Bool.false_or] at hk
              have htail2 : chainGoodSets
                  (FlagSet.mk f.self f.flags f.flagIndexes
                    (f.subsets.set ((lookupIdx f.subsetIndexes name).getD 0)
                      set2)
                    f.subsetIndexes) tail = true := by
                cases f with
                | mk s fl0 fi su si =>
                  exact (chainGoodSets_set_ne tail s fl0 fi su si
                    ((lookupIdx si name).getD 0) set2 hct).trans htail
              have hrec := resolveSubsets_chain envF tail
                (FlagSet.mk f.self f.flags f.flagIndexes
                  (f.subsets.set ((lookupIdx f.subsetIndexes name).getD 0)
                    set2)
                  f.subsetIndexes)
                ctx first _ g l hres hnd htail2 hk
              rw [chainLeafSets]
              simp only [hnf]
              exact hrec
end

/-- A child command `sub` with a boolean self sink, no flags and no
children of its own. -/
def chainDemoChild : FlagSet :=
  .mk { Names := "sub", Ptr := .bool false } [] [] .nil []

/-- A root command with the single child command `sub`. -/
def chainDemoSet : FlagSet :=
  .mk { Names := "tar", Ptr := .bool false } [] []
    (.cons chainDemoChild .nil) [("sub", 0)]

/-- The scanned run `tar sub`: one child-run entry, for `sub`, which is
also the first-encountered child name. -/
def chainDemoArgs : scanArgs :=
  .mk [valueTok "tar"] (.cons "sub" (.mk [valueTok "sub"] .nil "") .nil) "sub"

/-- The result of resolving `chainDemoArgs` against `chainDemoSet`: the
child's boolean self sink becomes `true` and the active command is the
resolved child. -/
def chainDemoRes : FlagSet × Option FlagSet :=
  (FlagSet.mk { Names := "tar", Ptr := .bool false } [] []
      (.cons (.mk { Names := "sub", Ptr := .bool true } [] [] .nil []) .nil)
      [("sub", 0)],
    some (.mk { Names := "sub", Ptr := .bool true } [] [] .nil []))

/-- C10: a successful `resolve` always determines an active command — the
returned `LastSet` component is never `nil`.  When the scanned arguments
contain no child-command run (an empty `Sets` map, and more generally
whenever the first-encountered name has no entry) the active command is
the root node itself; and for every well-formed child-run tree
(`chainGood`: the entries of each level name existing, pairwise distinct
child slots — the shape every Go scanner output has, `Sets` being a map
keyed by child name) the active command is exactly the node reached by
following the first-encountered child command chain through the resolved
tree. -/
theorem c10_lastset_never_nil :
    ∀ (envF : String → String) (f : FlagSet) (args : scanArgs)
      (res : FlagSet × Option FlagSet),
      resolve envF f args = .ok res →
      res.2.isSome = true ∧
      (args.Sets = .nil → res.2 = some res.1) ∧
      (args.Sets.hasKey args.FirstSubset = false → res.2 = some res.1) ∧
      (chainGood f args = true → res.2 = some (chainLeaf res.1 args)) := by
  intro envF f args res hres
  have hchain : chainGood f args = true →
      res.2 = some (chainLeaf res.1 args) := by
    intro hgood
    rw [resolve] at hres
    exact resolveSet_chain envF args f [] res.1 res.2 hres hgood
  cases args with
  | mk fl sets first =>
    rw [resolve, resolveSet] at hres
    cases hf : resolveFlags envF f ([] ++ [f.self.Names]) (fl.drop 1) with
    | error e => simp only [hf] at hres; cases hres
    | ok f2 =>
      simp only [hf] at hres
      cases hs : resolveSubsets envF f2 ([] ++ [f.self.Names]) sets first
          none with
      | error e => simp only [hs] at hres; cases hres
      | ok p =>
        obtain ⟨f3, last⟩ := p
        simp only [hs] at hres
        cases hres
        refine ⟨rfl, ?_, ?_, hchain⟩
        · intro hnil
          subst hnil
          rw [resolveSubsets] at hs
          cases hs
          rfl
        · intro hkey
          have := resolveSubsets_lastAcc_of_not_hasKey envF
            ([] ++ [f.self.Names]) first sets f2 none f3 last hkey hs
          subst this
          rfl

/-- Witness for C10: a concrete successful resolve whose arguments carry
one child run; the child-run tree is well formed, the first-encountered
name has an entry, and the active command returned is the resolved child —
the leaf of the first-encountered child chain — and is not `nil`. -/
theorem c10_lastset_never_nil_witness :
    chainGood chainDemoSet chainDemoArgs = true ∧
    chainDemoArgs.Sets.hasKey chainDemoArgs.FirstSubset = true ∧
    (chainDemoRes.2.isSome = true ∧
      (chainDemoArgs.Sets = .nil → chainDemoRes.2 = some chainDemoRes.1) ∧
      (chainDemoArgs.Sets.hasKey chainDemoArgs.FirstSubset = false →
        chainDemoRes.2 = some chainDemoRes.1) ∧
      (chainGood chainDemoSet chainDemoArgs = true →
        chainDemoRes.2 = some (chainLeaf chainDemoRes.1 chainDemoArgs))) :=
  ⟨rfl, rfl,
    c10_lastset_never_nil (fun _ => "") chainDemoSet chainDemoArgs
      chainDemoRes rfl⟩

/-! ### Claim C9 -/

/-- The argument list that explicitly supplies the literal values `vals` to
flag `n`, one attached-value flag token per value (`-n=v`), which applies
to every sink type, bool included, and is permitted repeatedly for slice
sinks. -/
def explicitArgsFor (n : String) (vals : List String) : List argument :=
  vals.map (fun v => { Typ := .flag, Value := n, Attached := v, AttachValid := true })

/-- Unfolding of the environment/default pass at an applied index. -/
theorem applyEnvDefLoop_cons_skip (envF : String → String)
    (applied : List Nat) (i : Nat) (fl : Flag) (rest : List Flag)
    (h : applied.contains i = true) :
    applyEnvDefLoop envF applied i (fl :: rest) =
      match applyEnvDefLoop envF applied (i + 1) rest with
      | .error e => .error e
      | .ok rest' => .ok (fl :: rest') := by
  rw [applyEnvDefLoop, if_pos h]

/-- Unfolding of the environment/default pass at an unapplied index. -/
theorem applyEnvDefLoop_cons_work (envF : String → String)
    (applied : List Nat) (i : Nat) (fl : Flag) (rest : List Flag)
    (h : applied.contains i = false) :
    applyEnvDefLoop envF applied i (fl :: rest) =
      match applyVals fl (envDefVals envF fl) with
      | .error e => .error e
      | .ok fl' =>
        match applyEnvDefLoop envF applied (i + 1) rest with
        | .error e => .error e
        | .ok rest' => .ok (fl' :: rest') := by
  rw [applyEnvDefLoop, if_neg (by rw [h]; simp)]

/-- A flag with no environment variable and some default falls back to its
default values. -/
theorem envDefVals_of_default (envF : String → String) (fl : Flag)
    (henv : fl.Env = "") (hdef : fl.Default.isSome = true) :
    envDefVals envF fl = fromDefault fl := by
  simp [envDefVals, henv, hdef]

/-- An `applied` set containing no index at or beyond the current position
does not influence the environment/default pass. -/
theorem applyEnvDefLoop_applied_irrelevant (envF : String → String) :
    ∀ (flags : List Flag) (b : Nat) (applied : List Nat),
      (∀ i, b ≤ i → i ∉ applied) →
      applyEnvDefLoop envF applied b flags = applyEnvDefLoop envF [] b flags
  | [], _, _, _ => rfl
  | fl0 :: tl, b, applied, h => by
    have hb : applied.contains b = false := by
      simpa using h b le_rfl
    have htl : applyEnvDefLoop envF applied (b + 1) tl
        = applyEnvDefLoop envF [] (b + 1) tl :=
      applyEnvDefLoop_applied_irrelevant envF tl (b + 1) applied
        (fun i hi => h i (Nat.le_of_succ_le hi))
    rw [applyEnvDefLoop_cons_work envF applied b fl0 tl hb,
      applyEnvDefLoop_cons_work envF [] b fl0 tl (by simp), htl]

/-- The key exchange for the default round-trip: running the
environment/default pass over flags whose entry `k` (at absolute position
`b + k`) was already explicitly set to the outcome `fl'` of applying its
own default values — with exactly that entry marked applied — produces the
very same computation as running the pass over the untouched flags with
nothing marked applied. -/
theorem applyEnvDefLoop_set_default (envF : String → String) :
    ∀ (flags : List Flag) (b k : Nat) (fl fl' : Flag) (applied : List Nat),
      flags.get? k = some fl →
      fl.Env = "" → fl.Default.isSome = true →
      applyVals fl (fromDefault fl) = .ok fl' →
      (∀ i, i ∈ applied ↔ i = b + k) →
      applyEnvDefLoop envF applied b (flags.set k fl')
        = applyEnvDefLoop envF [] b flags
  | [], _, k, fl, _, _, hget, _, _, _, _ => by
    rw [List.get?_eq_getElem?] at hget
    simp at hget
  | fl0 :: tl, b, 0, fl, fl', applied, hget, henv, hdef, happly, hmem => by
    rw [List.get?_eq_getElem?] at hget
    simp only [List.getElem?_cons_zero, Option.some.injEq] at hget
    subst hget
    have hb : applied.contains b = true := by
      simpa using (hmem b).mpr (by omega)
    have htl : applyEnvDefLoop envF applied (b + 1) tl
        = applyEnvDefLoop envF [] (b + 1) tl :=
      applyEnvDefLoop_applied_irrelevant envF tl (b + 1) applied
        (fun i hi hin => by
          have := (hmem i).mp hin
          omega)
    rw [List.set_cons_zero,
      applyEnvDefLoop_cons_skip envF applied b fl' tl hb,
      applyEnvDefLoop_cons_work envF [] b fl0 tl (by simp),
      envDefVals_of_default envF fl0 henv hdef, happly, htl]
  | fl0 :: tl, b, k + 1, fl, fl', applied, hget, henv, hdef, happly, hmem => by
    rw [List.get?_eq_getElem?] at hget
    simp only [List.getElem?_cons_succ] at hget
    rw [← List.get?_eq_getElem?] at hget
    have hb : applied.contains b = false := by
      simp only [Bool.eq_false_iff, ne_eq]
      intro hc
      have hbmem : b ∈ applied := by simpa using hc
      have := (hmem b).mp hbmem
      omega
    have htl : applyEnvDefLoop envF applied (b + 1) (tl.set k fl')
        = applyEnvDefLoop envF [] (b + 1) tl :=
      applyEnvDefLoop_set_default envF tl (b + 1) k fl fl' applied
        hget henv hdef happly (fun i => by rw [hmem i]; omega)
    rw [List.set_cons_succ,
      applyEnvDefLoop_cons_work envF applied b fl0 (tl.set k fl') hb,
      applyEnvDefLoop_cons_work envF [] b fl0 tl (by simp), htl]

/-- Stepping over an attached-value flag token (`-n=v`) whose flag is known
and not rejected as a duplicate applies the attachment and closes the
flag. -/
theorem stepArg_attach (cfg : RCfg) (st : RState) (n v : String)
    (rest : List argument) (j : Nat) (fl : Flag)
    (hopen : st.openFlag = none)
    (hlook : lookupIdx cfg.flagIndexes n = some j)
    (hget : st.flags.get? j = some fl)
    (hdupc : (st.applied.contains j && !isSlicePtr fl.Ptr) = false) :
    stepArg cfg st { Typ := .flag, Value := n, Attached := v, AttachValid := true } rest =
      match applyValToPtr fl.Names fl.Ptr v fl.Selects with
      | .error e => .error e
      | .ok s' => .ok (RState.mk (st.flags.set j { fl with Ptr := s' })
          st.argsAcc (j :: st.applied) none st.posIdx) := by
  simp only [stepArg, applyLastFlagCheck, hopen, hlook, hget, hdupc,
    Bool.false_eq_true, if_false, applyValue]
  cases applyValToPtr fl.Names fl.Ptr v fl.Selects <;> rfl

/-- Inversion of the resolver loop over an explicit `-n=v₁ … -n=vₖ`
argument list: a successful run is exactly a successful `applyVals` of
those literals onto the flag, the only state changes being the flag's new
sink, its membership in the applied set, and a closed open-flag slot. -/
theorem resolveLoop_explicit (cfg : RCfg) (n : String) (j : Nat)
    (hlook : lookupIdx cfg.flagIndexes n = some j) :
    ∀ (vals : List String) (st : RState) (fl : Flag) (st' : RState),
      st.openFlag = none → st.flags.get? j = some fl →
      resolveLoop cfg st (explicitArgsFor n vals) = .ok st' →
      ∃ fl', applyVals fl vals = .ok fl' ∧
        ((vals = [] ∧ st' = st) ∨
         (vals ≠ [] ∧ st'.flags = st.flags.set j fl' ∧ st'.openFlag = none ∧
          st'.argsAcc = st.argsAcc ∧ st'.posIdx = st.posIdx ∧
          (∀ i, i ∈ st'.applied ↔ i ∈ st.applied ∨ i = j)))
  | [], st, fl, st', hopen, hget, hres => by
    rw [explicitArgsFor] at hres
    simp only [List.map_nil, resolveLoop] at hres
    cases hres
    exact ⟨fl, rfl, Or.inl ⟨rfl, rfl⟩⟩
  | v :: vs, st, fl, st', hopen, hget, hres => by
    have hlen : j < st.flags.length := by
      rw [List.get?_eq_getElem?] at hget
      exact (List.getElem?_eq_some.mp hget).1
    rw [explicitArgsFor] at hres
    simp only [List.map_cons, resolveLoop] at hres
    cases hdupc : st.applied.contains j && !isSlicePtr fl.Ptr with
    | true =>
      simp only [stepArg, applyLastFlagCheck, hopen, hlook, hget, hdupc] at hres
      simp at hres
    | false =>
      rw [stepArg_attach cfg st n v _ j fl hopen hlook hget hdupc] at hres
      cases ha : applyValToPtr fl.Names fl.Ptr v fl.Selects with
      | error e =>
        simp only [ha] at hres
        cases hres
      | ok s' =>
        simp only [ha] at hres
        have hget1 : (st.flags.set j { fl with Ptr := s' }).get? j
            = some { fl with Ptr := s' } := by
          rw [List.get?_eq_getElem?]
          exact List.getElem?_set_self (by simpa using hlen)
        obtain ⟨fl', happlyvs, hcase⟩ :=
          resolveLoop_explicit cfg n j hlook vs
            (RState.mk (st.flags.set j { fl with Ptr := s' })
              st.argsAcc (j :: st.applied) none st.posIdx)
            { fl with Ptr := s' } st' rfl hget1 hres
        refine ⟨fl', ?_, ?_⟩
        · rw [applyVals, ha]
          exact happlyvs
        · rcases hcase with ⟨hnil, hst⟩ | ⟨_, hflags, hopen', hacc, hpos, happ⟩
          · subst hnil
            cases happlyvs
            subst hst
            refine Or.inr ⟨by simp, rfl, rfl, rfl, rfl, ?_⟩
            intro i
            simp only [List.mem_cons]
            tauto
          · refine Or.inr ⟨by simp, ?_, hopen', hacc, hpos, ?_⟩
            · rw [hflags]
              simp only [List.set_set]
            · intro i
              rw [happ i]
              simp only [List.mem_cons]
              tauto

/-- C9: round-trip of defaults.  For a flag with a default value and no
environment variable, parsing an argument list that never mentions the flag
produces exactly the same resolver result as parsing a list that explicitly
supplies the default's literal values to that flag (element by element, in
order, for slice defaults) — whenever the latter parse succeeds. -/
theorem c9_default_roundtrip :
    ∀ (envF : String → String) (f : FlagSet) (ctx : List String)
      (n : String) (j : Nat) (fl : Flag) (g : FlagSet),
      lookupIdx f.flagIndexes n = some j →
      f.flags.get? j = some fl →
      fl.Env = "" → fl.Default.isSome = true →
      resolveFlags envF f ctx (explicitArgsFor n (fromDefault fl)) = .ok g →
      resolveFlags envF f ctx [] = .ok g := by
  intro envF f ctx n j fl g hlook hget henv hdef hexp
  cases hvals : fromDefault fl with
  | nil =>
    rw [hvals] at hexp
    simpa [explicitArgsFor] using hexp
  | cons v vs =>
    rw [hvals] at hexp
    rw [resolveFlags] at hexp
    cases hloop : resolveLoop (mkRCfg f) (initState f) (explicitArgsFor n (v :: vs)) with
    | error e =>
      rw [hloop] at hexp
      cases hexp
    | ok st' =>
      simp only [hloop] at hexp
      obtain ⟨fl', happly, hcase⟩ :=
        resolveLoop_explicit (mkRCfg f) n j hlook (v :: vs) (initState f) fl st'
          rfl hget hloop
      rcases hcase with ⟨hnil, _⟩ | ⟨_, hflags, hopen', hacc, _, hmem⟩
      · cases hnil
      · have hdefapply : applyVals fl (fromDefault fl) = .ok fl' := by
          rw [hvals]; exact happly
        have henvdef : applyEnvDefLoop envF st'.applied 0 st'.flags
            = applyEnvDefLoop envF [] 0 f.flags := by
          rw [hflags]
          exact applyEnvDefLoop_set_default envF f.flags 0 j fl fl' st'.applied
            hget henv hdef hdefapply
            (fun i => by rw [hmem i]; simp [initState])
        simp only [applyLastFlagCheck, hopen'] at hexp
        rw [henvdef, hacc] at hexp
        simp only [initState] at hexp
        have h0 : resolveFlags envF f ctx [] =
            (match applyEnvDefLoop envF [] 0 f.flags with
             | .error e => .error e
             | .ok flags' => .ok (f.withResolved flags' f.self.ArgsPtr)) := rfl
        rw [h0]
        exact hexp

/-- An `int32` flag with default value 2 (rendered `"2"`). -/
def c9demoFlag : Flag :=
  { Names := "-b", Ptr := .num .i32 0, Default := some (.single .vnum "2") }

def c9demoSet : FlagSet :=
  .mk { Names := "t", Ptr := .bool false } [c9demoFlag] [("-b", 0)] .nil []

/-- Witness for C9 at a concrete input: for the defaulted `-b` flag, the
empty command line resolves to the same result as the explicit `-b=2`. -/
theorem c9_default_roundtrip_witness :
    ∃ g, resolveFlags (fun _ => "") c9demoSet ["t"] [] = .ok g :=
  ⟨_, c9_default_roundtrip (fun _ => "") c9demoSet ["t"] "-b" 0 c9demoFlag _
    rfl rfl rfl rfl rfl⟩

/-! ### Claim C4 -/

/-- The resolver loop run over a prefix `pre` of the argument list while the
suffix `post` is still unconsumed: each step sees the concatenated
remainder, exactly as the loop over `pre ++ post` does while inside
`pre`. -/
def runOver (cfg : RCfg) : RState → List argument → List argument → Except PError RState
  | st, [], _ => .ok st
  | st, a :: pre, post =>
    match stepArg cfg st a (pre ++ post) with
    | .error e => .error e
    | .ok st' => runOver cfg st' pre post

/-- With nothing left after it, the prefix run is the whole loop. -/
theorem runOver_nil (cfg : RCfg) :
    ∀ (l : List argument) (st : RState),
      runOver cfg st l [] = resolveLoop cfg st l
  | [], st => rfl
  | a :: pre, st => by
    rw [runOver, resolveLoop, List.append_nil]
    cases stepArg cfg st a pre with
    | error e => rfl
    | ok st' => exact runOver_nil cfg pre st'

/-- The loop over a concatenation factors through the prefix run. -/
theorem resolveLoop_append (cfg : RCfg) :
    ∀ (pre post : List argument) (st : RState),
      resolveLoop cfg st (pre ++ post) =
        match runOver cfg st pre post with
        | .error e => .error e
        | .ok st' => resolveLoop cfg st' post
  | [], post, st => by rw [runOver]; rfl
  | a :: pre, post, st => by
    rw [List.cons_append, resolveLoop, runOver]
    cases stepArg cfg st a (pre ++ post) with
    | error e => rfl
    | ok st' => exact resolveLoop_append cfg pre post st'

/-- Every error of `applyValToPtrCore` is a conversion error. -/
theorem applyValToPtrCore_error_conv :
    ∀ (ptr : Sink) (val : String) (sel : Option SelVals) (e : PError),
      applyValToPtrCore ptr val sel = .error e → ∃ c, e = .conv c := by
  intro ptr val sel e h
  unfold applyValToPtrCore at h
  cases ptr with
  | num ty v0 =>
    cases hf : goParseFloat val with
    | none => simp only [hf] at h; cases h; exact ⟨_, rfl⟩
    | some q =>
      simp only [hf] at h
      cases sel with
      | none => cases h
      | some s =>
        cases hcs : checkSelects (sinkKind (Sink.num ty v0)) s val
            ((some q).getD 0) <;> simp only [hcs] at h
        · cases h; exact ⟨_, rfl⟩
        · cases h
  | numSlice ty vs =>
    cases hf : goParseFloat val with
    | none => simp only [hf] at h; cases h; exact ⟨_, rfl⟩
    | some q =>
      simp only [hf] at h
      cases sel with
      | none => cases h
      | some s =>
        cases hcs : checkSelects (sinkKind (Sink.numSlice ty vs)) s val
            ((some q).getD 0) <;> simp only [hcs] at h
        · cases h; exact ⟨_, rfl⟩
        · cases h
  | str s0 =>
    cases sel with
    | none => cases h
    | some s =>
      cases hcs : checkSelects (sinkKind (Sink.str s0)) s val
          ((goParseFloat val).getD 0) <;> simp only [hcs] at h
      · cases h; exact ⟨_, rfl⟩
      · cases h
  | strSlice ss =>
    cases sel with
    | none => cases h
    | some s =>
      cases hcs : checkSelects (sinkKind (Sink.strSlice ss)) s val
          ((goParseFloat val).getD 0) <;> simp only [hcs] at h
      · cases h; exact ⟨_, rfl⟩
      · cases h
  | bool b0 =>
    cases hb : goParseBool val with
    | none => simp only [hb] at h; cases h; exact ⟨_, rfl⟩
    | some b =>
      simp only [hb] at h
      cases sel with
      | none => cases h
      | some s =>
        cases hcs : checkSelects (sinkKind (Sink.bool b0)) s val
            ((goParseFloat val).getD 0) <;> simp only [hcs] at h
        · cases h; exact ⟨_, rfl⟩
        · cases h
  | boolSlice bs =>
    cases hb : goParseBool val with
    | none => simp only [hb] at h; cases h; exact ⟨_, rfl⟩
    | some b =>
      simp only [hb] at h
      cases sel with
      | none => cases h
      | some s =>
        cases hcs : checkSelects (sinkKind (Sink.boolSlice bs)) s val
            ((goParseFloat val).getD 0) <;> simp only [hcs] at h
        · cases h; exact ⟨_, rfl⟩
        · cases h

/-- Every error of `applyValToPtr` is a conversion error. -/
theorem applyValToPtr_error_conv :
    ∀ (n : String) (ptr : Sink) (val : String) (sel : Option SelVals) (e : PError),
      applyValToPtr n ptr val sel = .error e → ∃ c, e = .conv c := by
  intro n ptr val sel e h
  unfold applyValToPtr at h
  split at h
  · cases hc : convertBool val with
    | none => simp only [hc] at h; cases h; exact ⟨_, rfl⟩
    | some v => simp only [hc] at h; exact applyValToPtrCore_error_conv _ _ _ _ h
  · exact applyValToPtrCore_error_conv _ _ _ _ h

/-- Every error of `applyValue` is a panic marker or a conversion error. -/
theorem applyValue_error_shape :
    ∀ (st : RState) (j : Nat) (v : String) (e : PError),
      applyValue st j v = .error e → e = .panicked ∨ ∃ c, e = .conv c := by
  intro st j v e h
  unfold applyValue at h
  cases hg : st.flags.get? j with
  | none => simp only [hg] at h; cases h; exact Or.inl rfl
  | some fl =>
    simp only [hg] at h
    cases ha : applyValToPtr fl.Names fl.Ptr v fl.Selects with
    | error e' =>
      simp only [ha] at h
      cases h
      exact Or.inr (applyValToPtr_error_conv _ _ _ _ _ ha)
    | ok s' => simp only [ha] at h; cases h

/-- Every error of `appendNonFlagArg` is the non-flag-value error, a panic
marker or a conversion error. -/
theorem appendNonFlagArg_error_shape :
    ∀ (cfg : RCfg) (st : RState) (arg : argument) (rest : List argument) (e : PError),
      appendNonFlagArg cfg st arg rest = .error e →
      e = .typed .errNonFlagValue ∨ e = .panicked ∨ ∃ c, e = .conv c := by
  intro cfg st arg rest e h
  unfold appendNonFlagArg at h
  split at h
  · cases h; exact Or.inl rfl
  · split at h
    · cases hg : cfg.positional.get? st.posIdx with
      | none => simp only [hg] at h; cases h; exact Or.inr (Or.inl rfl)
      | some j =>
        simp only [hg] at h
        cases ha : applyValue st j arg.Value with
        | error e' =>
          simp only [ha] at h
          cases h
          exact Or.inr (applyValue_error_shape _ _ _ _ ha)
        | ok st' => simp only [ha] at h; cases h
    · cases hacc : st.argsAcc with
      | some l => simp only [hacc] at h; cases h
      | none => simp only [hacc] at h; cases h; exact Or.inr (Or.inl rfl)

/-- A step errors with the missing-value error exactly on a flag token
arriving while a flag is open. -/
theorem stepArg_missing_iff :
    ∀ (cfg : RCfg) (st : RState) (a : argument) (rest : List argument),
      stepArg cfg st a rest = .error (.typed .errFlagValueNotProvided) ↔
        (a.Typ = .flag ∧ st.openFlag.isSome = true) := by
  intro cfg st a rest
  constructor
  · intro h
    cases hty : a.Typ with
    | value =>
      exfalso
      simp only [stepArg, hty] at h
      cases ho : st.openFlag with
      | none =>
        simp only [ho] at h
        rcases appendNonFlagArg_error_shape cfg st a rest _ h with h1 | h1 | ⟨c, h1⟩ <;>
          simp at h1
      | some j =>
        simp only [ho] at h
        cases ha : applyValue st j a.Value with
        | error e' =>
          simp only [ha] at h
          cases h
          rcases applyValue_error_shape st j a.Value _ ha with h1 | ⟨c, h1⟩ <;>
            simp at h1
        | ok st' => simp only [ha] at h; simp at h
    | flag =>
      refine ⟨rfl, ?_⟩
      cases ho : st.openFlag with
      | some j => rfl
      | none =>
        exfalso
        simp only [stepArg, hty, applyLastFlagCheck, ho] at h
        cases hl : lookupIdx cfg.flagIndexes a.Value with
        | none => simp only [hl] at h; simp at h
        | some j =>
          simp only [hl] at h
          cases hg : st.flags.get? j with
          | none => simp only [hg] at h; simp at h
          | some fl =>
            simp only [hg] at h
            split at h
            · simp at h
            · split at h
              · cases ha : applyValue st j a.Attached with
                | error e' =>
                  simp only [ha] at h
                  cases h
                  rcases applyValue_error_shape st j a.Attached _ ha with h1 | ⟨c, h1⟩ <;>
                    simp at h1
                | ok st' => simp only [ha] at h; simp at h
              · split at h
                · cases ha : applyValue st j "true" with
                  | error e' =>
                    simp only [ha] at h
                    cases h
                    rcases applyValue_error_shape st j "true" _ ha with h1 | ⟨c, h1⟩ <;>
                      simp at h1
                  | ok st' => simp only [ha] at h; simp at h
                · simp at h
  · rintro ⟨hty, hopen⟩
    obtain ⟨j, hj⟩ := Option.isSome_iff_exists.mp hopen
    simp [stepArg, hty, applyLastFlagCheck, hj]

/-- Every error of `applyVals` is a conversion error. -/
theorem applyVals_error_conv :
    ∀ (vals : List String) (fl : Flag) (e : PError),
      applyVals fl vals = .error e → ∃ c, e = .conv c
  | [], fl, e, h => by cases h
  | v :: vs, fl, e, h => by
    rw [applyVals] at h
    cases ha : applyValToPtr fl.Names fl.Ptr v fl.Selects with
    | error e' =>
      simp only [ha] at h
      cases h
      exact applyValToPtr_error_conv _ _ _ _ _ ha
    | ok s' =>
      simp only [ha] at h
      exact applyVals_error_conv vs _ e h

/-- Every error of the environment/default pass is a conversion error. -/
theorem applyEnvDefLoop_error_conv (envF : String → String) :
    ∀ (flags : List Flag) (applied : List Nat) (b : Nat) (e : PError),
      applyEnvDefLoop envF applied b flags = .error e → ∃ c, e = .conv c
  | [], _, _, e, h => by cases h
  | fl0 :: tl, applied, b, e, h => by
    rw [applyEnvDefLoop] at h
    split at h
    · cases hr : applyEnvDefLoop envF applied (b + 1) tl with
      | error e' =>
        simp only [hr] at h
        cases h
        exact applyEnvDefLoop_error_conv envF tl applied (b + 1) _ hr
      | ok rest' => simp only [hr] at h; cases h
    · cases ha : applyVals fl0 (envDefVals envF fl0) with
      | error e' =>
        simp only [ha] at h
        cases h
        exact applyVals_error_conv _ _ _ ha
      | ok fl' =>
        simp only [ha] at h
        cases hr : applyEnvDefLoop envF applied (b + 1) tl with
        | error e' =>
          simp only [hr] at h
          cases h
          exact applyEnvDefLoop_error_conv envF tl applied (b + 1) _ hr
        | ok rest' => simp only [hr] at h; cases h

/-- Resolver-state invariant: any currently open flag exists in the flag
array and has a non-boolean sink (boolean flags are closed immediately, so
they never stay open). -/
def openInv (st : RState) : Prop :=
  ∀ j, st.openFlag = some j →
    ∃ fl, st.flags.get? j = some fl ∧ isBoolPtr fl.Ptr = false

/-- A successful `applyValue` leaves the open-flag slot unchanged. -/
theorem applyValue_ok_openFlag :
    ∀ (st : RState) (j : Nat) (v : String) (st' : RState),
      applyValue st j v = .ok st' → st'.openFlag = st.openFlag := by
  intro st j v st' h
  unfold applyValue at h
  cases hg : st.flags.get? j with
  | none => simp only [hg] at h; cases h
  | some fl =>
    simp only [hg] at h
    cases ha : applyValToPtr fl.Names fl.Ptr v fl.Selects with
    | error e => simp only [ha] at h; cases h
    | ok s' => simp only [ha] at h; cases h; rfl

/-- One resolver step preserves the open-flag invariant. -/
theorem stepArg_ok_openInv :
    ∀ (cfg : RCfg) (st : RState) (a : argument) (rest : List argument) (st' : RState),
      stepArg cfg st a rest = .ok st' → openInv st → openInv st' := by
  intro cfg st a rest st' h hinv
  cases hty : a.Typ with
  | value =>
    simp only [stepArg, hty] at h
    cases ho : st.openFlag with
    | none =>
      simp only [ho] at h
      unfold appendNonFlagArg at h
      split at h
      · cases h
      · split at h
        · cases hg : cfg.positional.get? st.posIdx with
          | none => simp only [hg] at h; cases h
          | some j =>
            simp only [hg] at h
            cases ha : applyValue st j a.Value with
            | error e => simp only [ha] at h; cases h
            | ok st1 =>
              simp only [ha] at h
              cases h
              intro j' hj'
              have : st1.openFlag = st.openFlag := applyValue_ok_openFlag st j a.Value st1 ha
              rw [this, ho] at hj'
              cases hj'
        · cases hacc : st.argsAcc with
          | some l =>
            simp only [hacc] at h
            cases h
            intro j' hj'
            rw [ho] at hj'
            cases hj'
          | none => simp only [hacc] at h; cases h
    | some j =>
      simp only [ho] at h
      cases ha : applyValue st j a.Value with
      | error e => simp only [ha] at h; cases h
      | ok st1 =>
        simp only [ha] at h
        cases h
        intro j' hj'
        cases hj'
  | flag =>
    simp only [stepArg, hty] at h
    cases ho : st.openFlag with
    | some j => simp only [applyLastFlagCheck, ho] at h; cases h
    | none =>
      simp only [applyLastFlagCheck, ho] at h
      cases hl : lookupIdx cfg.flagIndexes a.Value with
      | none => simp only [hl] at h; cases h
      | some j =>
        simp only [hl] at h
        cases hg : st.flags.get? j with
        | none => simp only [hg] at h; cases h
        | some fl =>
          simp only [hg] at h
          split at h
          · cases h
          · split at h
            · cases ha : applyValue st j a.Attached with
              | error e => simp only [ha] at h; cases h
              | ok st1 =>
                simp only [ha] at h
                cases h
                intro j' hj'
                cases hj'
            · rename_i hnotatt
              split at h
              · cases ha : applyValue st j "true" with
                | error e => simp only [ha] at h; cases h
                | ok st1 =>
                  simp only [ha] at h
                  cases h
                  intro j' hj'
                  cases hj'
              · rename_i hnotbool
                cases h
                intro j' hj'
                cases hj'
                exact ⟨fl, hg, by simpa using hnotbool⟩

/-- The prefix run preserves the open-flag invariant. -/
theorem runOver_ok_openInv (cfg : RCfg) :
    ∀ (pre post : List argument) (st st' : RState),
      runOver cfg st pre post = .ok st' → openInv st → openInv st'
  | [], _, st, st', h, hinv => by
    rw [runOver] at h
    cases h
    exact hinv
  | a :: pre, post, st, st', h, hinv => by
    rw [runOver] at h
    cases hs : stepArg cfg st a (pre ++ post) with
    | error e => simp only [hs] at h; cases h
    | ok st1 =>
      simp only [hs] at h
      exact runOver_ok_openInv cfg pre post st1 st' h
        (stepArg_ok_openInv cfg st a (pre ++ post) st1 hs hinv)

/-- A missing-value failure of the argument loop happens exactly at a flag
token met while a flag is still open, after an error-free prefix. -/
theorem resolveLoop_missing_split (cfg : RCfg) :
    ∀ (l : List argument) (st : RState),
      resolveLoop cfg st l = .error (.typed .errFlagValueNotProvided) →
      ∃ pre post st', l = pre ++ post ∧ runOver cfg st pre post = .ok st' ∧
        st'.openFlag.isSome = true ∧
        ∃ a rest, post = a :: rest ∧ a.Typ = .flag
  | [], st, h => by cases h
  | a :: rest, st, h => by
    rw [resolveLoop] at h
    cases hs : stepArg cfg st a rest with
    | error e =>
      simp only [hs] at h
      cases h
      obtain ⟨hty, hopen⟩ := (stepArg_missing_iff cfg st a rest).mp hs
      exact ⟨[], a :: rest, st, rfl, rfl, hopen, a, rest, rfl, hty⟩
    | ok st1 =>
      simp only [hs] at h
      obtain ⟨pre', post', st'', hsp, hrun, hopen, hhead⟩ :=
        resolveLoop_missing_split cfg rest st1 h
      refine ⟨a :: pre', post', st'', by rw [hsp, List.cons_append], ?_, hopen, hhead⟩
      rw [runOver, ← hsp, hs]
      exact hrun

/-- C4: a `MissingValue` failure of `resolveFlags` occurs if and only if
some (automatically non-boolean) flag is opened by its token and no
`ValueToken` is applied to it before the next `FlagToken` or before the
end of the argument list: equivalently, the arguments split as
`pre ++ post` where the error-free run over `pre` ends with a non-boolean
flag still open and `post` either is empty or starts with a flag token. -/
theorem c4_missing_value_iff :
    ∀ (envF : String → String) (f : FlagSet) (ctx : List String)
      (args : List argument),
      resolveFlags envF f ctx args = .error (.typed .errFlagValueNotProvided) ↔
      ∃ pre post st, args = pre ++ post ∧
        runOver (mkRCfg f) (initState f) pre post = .ok st ∧
        (∃ j fl, st.openFlag = some j ∧ st.flags.get? j = some fl ∧
          isBoolPtr fl.Ptr = false) ∧
        (post = [] ∨ ∃ a rest, post = a :: rest ∧ a.Typ = .flag) := by
  intro envF f ctx args
  have hinv0 : openInv (initState f) := by
    intro j hj
    cases hj
  constructor
  · intro h
    rw [resolveFlags] at h
    cases hloop : resolveLoop (mkRCfg f) (initState f) args with
    | error e =>
      simp only [hloop] at h
      cases h
      obtain ⟨pre, post, st', hsp, hrun, hopen, a, rest, hpost, hty⟩ :=
        resolveLoop_missing_split (mkRCfg f) args (initState f) hloop
      obtain ⟨j, hj⟩ := Option.isSome_iff_exists.mp hopen
      obtain ⟨fl, hfl, hbool⟩ :=
        runOver_ok_openInv (mkRCfg f) pre post (initState f) st' hrun hinv0 j hj
      exact ⟨pre, post, st', hsp, hrun, ⟨j, fl, hj, hfl, hbool⟩,
        Or.inr ⟨a, rest, hpost, hty⟩⟩
    | ok st1 =>
      simp only [hloop] at h
      cases ho : st1.openFlag with
      | some j =>
        obtain ⟨fl, hfl, hbool⟩ :=
          runOver_ok_openInv (mkRCfg f) args [] (initState f) st1
            (by rw [runOver_nil]; exact hloop) hinv0 j ho
        exact ⟨args, [], st1, by simp, by rw [runOver_nil]; exact hloop,
          ⟨j, fl, ho, hfl, hbool⟩, Or.inl rfl⟩
      | none =>
        exfalso
        simp only [applyLastFlagCheck, ho] at h
        cases henv : applyEnvDefLoop envF st1.applied 0 st1.flags with
        | error e =>
          simp only [henv] at h
          cases h
          obtain ⟨c, hc⟩ := applyEnvDefLoop_error_conv envF st1.flags st1.applied 0 _ henv
          cases hc
        | ok flags' => simp only [henv] at h; cases h
  · rintro ⟨pre, post, st, hsp, hrun, ⟨j, fl, hj, hfl, hbool⟩, hpost⟩
    rw [resolveFlags, hsp, resolveLoop_append (mkRCfg f) pre post (initState f), hrun]
    rcases hpost with hnil | ⟨a, rest, hcons, hty⟩
    · subst hnil
      simp only [resolveLoop, applyLastFlagCheck, hj]
    · subst hcons
      have hstep : stepArg (mkRCfg f) st a rest = .error (.typed .errFlagValueNotProvided) :=
        (stepArg_missing_iff (mkRCfg f) st a rest).mpr ⟨hty, by rw [hj]; rfl⟩
      simp only [resolveLoop, hstep]

/-- Witness for C4 at a concrete input, in the backward direction: the open
non-boolean flag `-f` followed by end of input yields the missing-value
error. -/
theorem c4_missing_value_iff_witness :
    resolveFlags (fun _ => "") sliceDemoSet ["tar"]
        [{ Typ := .flag, Value := "-f" }]
      = .error (.typed .errFlagValueNotProvided) :=
  (c4_missing_value_iff (fun _ => "") sliceDemoSet ["tar"]
      [{ Typ := .flag, Value := "-f" }]).mpr
    ⟨[{ Typ := .flag, Value := "-f" }], [],
      RState.mk sliceDemoSet.flags none [] (some 0) 0, rfl, rfl,
      ⟨0, { Names := "-f", Ptr := .strSlice [] }, rfl, rfl, rfl⟩, Or.inl rfl⟩

end CosFlag
